import Mathlib

set_option maxRecDepth 100000

/-!
A shallow embedding of the chat relay server in `async_chat/server.py`.

The server keeps, inside the single dispatcher task, four pieces of state:
per-connection records (`Client`: optional display name, optional current
room, a bounded outbound queue of capacity 200), a room map
(`room name -> set of connections`), a name table
(`display name -> connection`) and a file-transfer registry
(`transfer id -> metadata`).  Connections are identified here by a `Nat`
(Python compares connections with `is`, i.e. object identity).  Python
dicts and sets become association lists keyed by `String` and duplicate-free
`List Nat` respectively; the wall-clock `ts` field that the server attaches
to every outbound payload is omitted, since no claim mentions it.

`await q.put(x)` (a blocking put, used for all direct replies) is modelled
as an unconditional append — in the sequential model the put always
eventually completes; `q.put_nowait(x)` guarded by `except QueueFull: pass`
(used by `_broadcast`) is modelled as an append that is dropped when the
queue already holds 200 items.

`uuid.uuid4().hex` is modelled by a fresh-id counter in the state; ids are
pairwise distinct, which is all the code relies on.
-/

/-- Capacity of each connection's outbound queue (`asyncio.Queue(maxsize=200)`). -/
def outQMax : Nat := 200

/-- Default room auto-joined on `hello` (`DEFAULT_ROOM = "lobby"`). -/
def defaultRoom : String := "lobby"

/-- Outbound payloads the server can enqueue, minus the `ts` timestamp. -/
inductive OutMsg where
  | error (text : String)
  | info (text : String)
  | msg (room fromName text : String)
  | pm (fromName text : String)
  | roomList (rooms : List String)
  | userList (room : Option String) (users : List String)
  | fileAck (id : String)
  | fileStartN (id fromName room filename : String) (size : Int)
  | fileChunkN (id : String) (seq : Int) (data fromName : String)
  | fileEndN (id fromName : String)
deriving Repr, DecidableEq

/-- Inbound messages, after the dispatcher has read `m.get("type")` and the
handlers have read each field through `str(...)` / `int(...)`; a field the
sender omitted carries the Python default (`""` / `0`).  `other t` is any
unrecognized `type` value (as a string, the way the f-string renders it). -/
inductive InMsg where
  | hello (name : String)
  | join (room : String)
  | msgIn (text : String)
  | pmIn (toName text : String)
  | listRooms
  | listUsers
  | fileStart (filename : String) (size : Int)
  | fileChunk (id : String) (seq : Int) (data : String)
  | fileEnd (id : String)
  | other (t : String)
deriving Repr, DecidableEq

/-- Metadata recorded by `file_start`: `{"from": c.name, "room": c.room,
"filename": ..., "size": ...}` (the `ts` field is omitted). -/
structure FileMeta where
  fromName : String
  room : String
  filename : String
  size : Int
deriving Repr, DecidableEq

/-- One connection's dispatcher-visible state. -/
structure Client where
  name : Option String := none
  room : Option String := none
  outQ : List OutMsg := []
deriving Repr, DecidableEq

/-- The registries owned by the dispatcher, plus a counter standing in for
`uuid.uuid4().hex`. -/
structure ServerState where
  clients : Nat → Client
  rooms : List (String × List Nat)
  byName : List (String × Nat)
  files : List (String × FileMeta)
  nextFid : Nat

/-- The state right after `ChatServer.__init__`: empty registries, every
(future) connection a fresh `Client`. -/
def initState : ServerState :=
  { clients := fun _ => {}, rooms := [], byName := [], files := [], nextFid := 0 }

/-- Association-list lookup (Python `d.get(k)` / `k in d`). -/
def alookup {β : Type} : List (String × β) → String → Option β
  | [], _ => none
  | (k, v) :: rest, key => if k = key then some v else alookup rest key

/-- Association-list delete (Python `del d[k]`; removes every binding of `k`,
which coincides with `del` on duplicate-free keys). -/
def aerase {β : Type} (l : List (String × β)) (k : String) : List (String × β) :=
  l.filter (fun p => p.1 ≠ k)

/-- Association-list assignment (Python `d[k] = v`). -/
def ainsert {β : Type} (l : List (String × β)) (k : String) (v : β) : List (String × β) :=
  aerase l k ++ [(k, v)]

/-- Rewrite the value stored under key `r` in place, if present. -/
def mapAt {β : Type} (rs : List (String × β)) (r : String) (f : β → β) :
    List (String × β) :=
  rs.map (fun p => if p.1 = r then (p.1, f p.2) else p)

/-- `set.discard(c)` on one member set. -/
def setDiscard (cid : Nat) (ms : List Nat) : List Nat :=
  ms.filter (fun i => i ≠ cid)

/-- `set.add(c)` on one member set. -/
def setAdd (cid : Nat) (ms : List Nat) : List Nat :=
  if cid ∈ ms then ms else ms ++ [cid]

/-- `self._rooms.get(r, set()).discard(c)`: remove `cid` from room `r`'s
member set, a no-op when `r` is not a key. -/
def roomDiscard (rs : List (String × List Nat)) (r : String) (cid : Nat) :
    List (String × List Nat) :=
  mapAt rs r (setDiscard cid)

/-- `self._rooms.setdefault(r, set()).add(c)`. -/
def roomAdd (rs : List (String × List Nat)) (r : String) (cid : Nat) :
    List (String × List Nat) :=
  if (alookup rs r).isSome then mapAt rs r (setAdd cid)
  else rs ++ [(r, [cid])]

/-- `if r in self._rooms and not self._rooms[r]: del self._rooms[r]`. -/
def dropIfEmpty (rs : List (String × List Nat)) (r : String) :
    List (String × List Nat) :=
  if alookup rs r = some [] then aerase rs r else rs

/-- Replace connection `i`'s record. -/
def updateClient (s : ServerState) (i : Nat) (f : Client → Client) : ServerState :=
  { s with clients := fun j => if j = i then f (s.clients j) else s.clients j }

/-- `await c.out_q.put(payload)`: the blocking put used for direct replies. -/
def sendTo (s : ServerState) (i : Nat) (p : OutMsg) : ServerState :=
  updateClient s i (fun c => { c with outQ := c.outQ ++ [p] })

/-- Effect of `q.put_nowait(p)` under `except QueueFull: pass` on the queue. -/
def deliverQ (q : List OutMsg) (p : OutMsg) : List OutMsg :=
  if q.length < outQMax then q ++ [p] else q

/-- `cl.out_q.put_nowait(payload)` with the QueueFull drop, for one client. -/
def deliver (s : ServerState) (i : Nat) (p : OutMsg) : ServerState :=
  updateClient s i (fun c => { c with outQ := deliverQ c.outQ p })

/-- `ChatServer._broadcast`: non-blocking enqueue to every member of `room`
except `exclude`, dropping per-recipient on a full queue. -/
def broadcast (s : ServerState) (room : String) (p : OutMsg) (exclude : Option Nat) :
    ServerState :=
  ((alookup s.rooms room).getD []).foldl
    (fun st i => if exclude = some i then st else deliver st i p) s

/-- The fold inside `broadcast`, factored out so it can be reasoned about by
induction on the target list. -/
def deliverAll (l : List Nat) (p : OutMsg) (excl : Option Nat) (t : ServerState) :
    ServerState :=
  l.foldl (fun st i => if excl = some i then st else deliver st i p) t

/-- Python `str.strip()` (leading and trailing whitespace removed). -/
def pyStrip (s : String) : String :=
  ⟨((s.data.dropWhile Char.isWhitespace).reverse.dropWhile Char.isWhitespace).reverse⟩

/-- Python `str.rstrip("\n")`: trailing newline characters removed. -/
def rstripNl (s : String) : String :=
  ⟨(s.data.reverse.dropWhile (fun c => c = '\n')).reverse⟩

/-- `f"{c.name}"`: how the f-strings render the optional name. -/
def nameStr : Option String → String
  | some n => n
  | none => "None"

/-- `base64.b64decode(data.encode("ascii"), validate=True)` succeeds: every
character is a standard-alphabet digit except up to two trailing `=` pads,
and the total length is a multiple of four. -/
def b64Valid (s : String) : Bool :=
  let cs := s.data
  let dataPart := cs.takeWhile (fun c => c ≠ '=')
  let padPart := cs.drop dataPart.length
  dataPart.all (fun c => c.isAlphanum || c = '+' || c = '/') &&
    padPart.all (fun c => c = '=') && decide (padPart.length ≤ 2) &&
    cs.length % 4 == 0

/-- The transfer id minted for `self._files[fid] = meta` (stands in for
`uuid.uuid4().hex`; distinct counter values give distinct ids). -/
def fidOf (n : Nat) : String := toString n

/-- `dropIfEmpty` lifted to the whole state. -/
def dropIfEmptyState (s : ServerState) (r : String) : ServerState :=
  { s with rooms := dropIfEmpty s.rooms r }

/-- `ChatServer._join_room`.  The `left`/`joined` notice texts interpolate
`c.name`; nothing between the start of the handler and those broadcasts
mutates any client's `name`, so the embedding reads it from `s` directly. -/
def joinRoom (s : ServerState) (cid : Nat) (room : String) : ServerState :=
  if (s.clients cid).room = some room then
    sendTo s cid (.info ("You are already in room " ++ room))
  else
    let s1 :=
      match (s.clients cid).room with
      | some o =>
          dropIfEmptyState
            (broadcast { s with rooms := roomDiscard s.rooms o cid } o
              (.info (nameStr (s.clients cid).name ++ " left room " ++ o)) (some cid)) o
      | none => s
    let s2 := updateClient s1 cid (fun c => { c with room := some room })
    let s3 := { s2 with rooms := roomAdd s2.rooms room cid }
    let s4 := sendTo s3 cid (.info ("You joined room " ++ room))
    broadcast s4 room
      (.info (nameStr (s.clients cid).name ++ " joined room " ++ room)) (some cid)

/-- `if not name or len(name) > 32 or any(ch.isspace() for ch in name)` on the
already-stripped name. -/
def badName (name : String) : Prop :=
  name = "" ∨ 32 < name.length ∨ name.data.any Char.isWhitespace

instance (name : String) : Decidable (badName name) := by
  unfold badName
  infer_instance

/-- `if name in self._clients_by_name and self._clients_by_name[name] is not c`. -/
def nameTaken (s : ServerState) (name : String) (cid : Nat) : Prop :=
  (alookup s.byName name).isSome ∧ alookup s.byName name ≠ some cid

instance (s : ServerState) (name : String) (cid : Nat) : Decidable (nameTaken s name cid) := by
  unfold nameTaken
  infer_instance

/-- The rename bookkeeping of `_handle_hello`: `if c.name and c.name in
self._clients_by_name and self._clients_by_name[c.name] is c: del ...`. -/
def helloRelease (s : ServerState) (cid : Nat) : ServerState :=
  match (s.clients cid).name with
  | some oldName =>
      if alookup s.byName oldName = some cid then
        { s with byName := aerase s.byName oldName }
      else s
  | none => s

/-- The tail of `_handle_hello` after validation: bind the name, confirm, and
auto-join the default room when the connection has none. -/
def helloBind (s1 : ServerState) (cid : Nat) (name : String) : ServerState :=
  let s2 := updateClient s1 cid (fun c => { c with name := some name })
  let s3 := { s2 with byName := ainsert s2.byName name cid }
  let s4 := sendTo s3 cid
    (.info ("You are logged in as " ++ name ++ ". Use join to pick a room."))
  if (s4.clients cid).room = none then joinRoom s4 cid defaultRoom else s4

/-- `ChatServer._handle_hello`. -/
def handleHello (s : ServerState) (cid : Nat) (rawName : String) : ServerState :=
  let name := pyStrip rawName
  if badName name then
    sendTo s cid (.error "Invalid name (max 32 chars, no spaces)")
  else if nameTaken s name cid then
    sendTo s cid (.error "Name already taken")
  else
    helloBind (helloRelease s cid) cid name

/-- `ChatServer._handle_join`. -/
def handleJoin (s : ServerState) (cid : Nat) (rawRoom : String) : ServerState :=
  if (s.clients cid).name = none then
    sendTo s cid (.error "Send hello first")
  else
    let room := pyStrip rawRoom
    if room = "" ∨ 40 < room.length then
      sendTo s cid (.error "Invalid room name")
    else joinRoom s cid room

/-- `ChatServer._handle_msg`. -/
def handleMsg (s : ServerState) (cid : Nat) (rawText : String) : ServerState :=
  if (s.clients cid).name = none then
    sendTo s cid (.error "Send hello first")
  else if (s.clients cid).room = none then
    sendTo s cid (.error "Join a room first")
  else
    let text := rstripNl rawText
    if text = "" then s
    else if 2000 < text.length then
      sendTo s cid (.error "Message too long")
    else
      broadcast s ((s.clients cid).room.getD "")
        (.msg ((s.clients cid).room.getD "") (nameStr (s.clients cid).name) text) none

/-- `ChatServer._handle_pm`. -/
def handlePm (s : ServerState) (cid : Nat) (rawTo rawText : String) : ServerState :=
  if (s.clients cid).name = none then
    sendTo s cid (.error "Send hello first")
  else
    let dest := pyStrip rawTo
    let text := rstripNl rawText
    if dest = "" ∨ text = "" then
      sendTo s cid (.error "PM format: to + text")
    else
      match alookup s.byName dest with
      | none => sendTo s cid (.error ("User " ++ dest ++ " not found"))
      | some dst =>
          sendTo (sendTo s dst (.pm (nameStr (s.clients cid).name) text)) cid
            (.info ("PM sent -> " ++ dest))

/-- Insertion sort on strings (`sorted(...)` on a list of `str`). -/
def strInsert (x : String) : List String → List String
  | [] => [x]
  | y :: ys => if x ≤ y then x :: y :: ys else y :: strInsert x ys

/-- `sorted(l)` for strings. -/
def strSort (l : List String) : List String := l.foldr strInsert []

/-- `ChatServer._handle_list_rooms`. -/
def handleListRooms (s : ServerState) (cid : Nat) : ServerState :=
  sendTo s cid (.roomList (strSort (s.rooms.map Prod.fst)))

/-- `ChatServer._handle_list_users`. -/
def handleListUsers (s : ServerState) (cid : Nat) : ServerState :=
  match (s.clients cid).room with
  | none => sendTo s cid (.userList none [])
  | some r =>
      let users := strSort
        (((alookup s.rooms r).getD []).filterMap (fun i => (s.clients i).name))
      sendTo s cid (.userList (some r) users)

/-- `ChatServer._handle_file`, one definition per message kind below this
guard: `if not c.name or not c.room`. -/
def fileAuthed (s : ServerState) (cid : Nat) : Bool :=
  (s.clients cid).name.isSome && (s.clients cid).room.isSome

/-- The `file_start` arm of `ChatServer._handle_file`. -/
def handleFileStart (s : ServerState) (cid : Nat) (rawFilename : String) (size : Int) :
    ServerState :=
  if !fileAuthed s cid then
    sendTo s cid (.error "File transfer requires hello + join")
  else
    let filename := (pyStrip rawFilename).take 200
    if filename = "" ∨ size < 0 ∨ 200 * 1024 * 1024 < size then
      sendTo s cid (.error "Invalid file (name/size)")
    else
      let nm := nameStr (s.clients cid).name
      let rm := (s.clients cid).room.getD ""
      let fid := fidOf s.nextFid
      let meta : FileMeta := { fromName := nm, room := rm, filename := filename, size := size }
      let s1 := { s with files := ainsert s.files fid meta, nextFid := s.nextFid + 1 }
      let s2 := sendTo s1 cid (.fileAck fid)
      broadcast s2 rm (.fileStartN fid nm rm filename size) (some cid)

/-- The `file_chunk` arm of `ChatServer._handle_file`. -/
def handleFileChunk (s : ServerState) (cid : Nat) (rawId : String) (seq : Int)
    (data : String) : ServerState :=
  if !fileAuthed s cid then
    sendTo s cid (.error "File transfer requires hello + join")
  else
    match alookup s.files (pyStrip rawId) with
    | none => sendTo s cid (.error "Unknown file id")
    | some meta =>
        if some meta.fromName ≠ (s.clients cid).name ∨ some meta.room ≠ (s.clients cid).room then
          sendTo s cid (.error "Forbidden file_chunk")
        else if 200000 < data.length then
          sendTo s cid (.error "Chunk too large")
        else if !b64Valid data then
          sendTo s cid (.error "Invalid base64")
        else
          broadcast s meta.room
            (.fileChunkN (pyStrip rawId) seq data (nameStr (s.clients cid).name)) (some cid)

/-- The `file_end` arm of `ChatServer._handle_file`. -/
def handleFileEnd (s : ServerState) (cid : Nat) (rawId : String) : ServerState :=
  if !fileAuthed s cid then
    sendTo s cid (.error "File transfer requires hello + join")
  else
    match alookup s.files (pyStrip rawId) with
    | none => sendTo s cid (.error "Unknown file id")
    | some meta =>
        if some meta.fromName ≠ (s.clients cid).name ∨ some meta.room ≠ (s.clients cid).room then
          sendTo s cid (.error "Forbidden file_end")
        else
          let s1 := broadcast s meta.room
            (.fileEndN (pyStrip rawId) (nameStr (s.clients cid).name)) (some cid)
          { s1 with files := aerase s1.files (pyStrip rawId) }

/-- One iteration of `ChatServer._dispatcher` on one dequeued event.  Every
handler is a total Lean function, which embeds the dispatcher's catch-all:
no event's processing escapes the loop. -/
def step (s : ServerState) (cid : Nat) (m : InMsg) : ServerState :=
  match m with
  | .hello n => handleHello s cid n
  | .join r => handleJoin s cid r
  | .msgIn t => handleMsg s cid t
  | .pmIn d t => handlePm s cid d t
  | .listRooms => handleListRooms s cid
  | .listUsers => handleListUsers s cid
  | .fileStart f sz => handleFileStart s cid f sz
  | .fileChunk i sq d => handleFileChunk s cid i sq d
  | .fileEnd i => handleFileEnd s cid i
  | .other t => sendTo s cid (.error ("Unknown type=" ++ t))

/-- `ChatServer._cleanup_client` (registry effects; closing the writer has
no registry effect).  Note it does not clear the client's own `name`/`room`
fields and does not touch `self._files`. -/
def cleanupClient (s : ServerState) (cid : Nat) : ServerState :=
  let s1 :=
    match (s.clients cid).room with
    | some r => dropIfEmptyState { s with rooms := roomDiscard s.rooms r cid } r
    | none => s
  match (s.clients cid).name with
  | some n =>
      if alookup s1.byName n = some cid then { s1 with byName := aerase s1.byName n }
      else s1
  | none => s1

/-- Everything that can touch the registries: a dispatched event, or the
cleanup run when a connection's handler pair winds down. -/
inductive Act where
  | evt (cid : Nat) (m : InMsg)
  | disc (cid : Nat)

/-- Apply one action. -/
def applyAct (s : ServerState) : Act → ServerState
  | .evt cid m => step s cid m
  | .disc cid => cleanupClient s cid

/-- Run a whole trace of actions from a state. -/
def runActs (s : ServerState) (acts : List Act) : ServerState :=
  acts.foldl applyAct s

/-- One line arriving on a connection's reader, as `_read_loop` classifies
it: either it decodes to a message carrying a `type`, or `json.loads` /
the schema check fails. -/
inductive Line where
  | valid (m : InMsg)
  | invalid

/-- `_read_loop` + dispatcher effect of one line: an undecodable line is
answered with an `error` and the loop continues; a valid line becomes an
event the dispatcher processes. -/
def processLine (s : ServerState) (cid : Nat) : Line → ServerState
  | .invalid => sendTo s cid (.error "Invalid JSON or schema")
  | .valid m => step s cid m

/-- Process a whole sequence of lines from one connection. -/
def processLines (s : ServerState) (cid : Nat) (ls : List Line) : ServerState :=
  ls.foldl (fun st l => processLine st cid l) s

/-- The invariant the dispatcher maintains over its registries:
room-map and name-table keys are duplicate-free, every room present in the
map is non-empty and duplicate-free, every member of a room has that room
in its `room` field, and every name-table entry points at a connection
whose `name` field is that key. -/
structure RegInv (s : ServerState) : Prop where
  roomKeys : (s.rooms.map Prod.fst).Nodup
  nameKeys : (s.byName.map Prod.fst).Nodup
  roomsNE : ∀ p ∈ s.rooms, p.2 ≠ ([] : List Nat)
  memsND : ∀ p ∈ s.rooms, p.2.Nodup
  roomField : ∀ p ∈ s.rooms, ∀ i ∈ p.2, (s.clients i).room = some p.1
  nameField : ∀ p ∈ s.byName, (s.clients p.2).name = some p.1

/-! ### Frame lemmas for the delivery primitives -/

theorem updateClient_clients (s : ServerState) (i : Nat) (f : Client → Client) (j : Nat) :
    (updateClient s i f).clients j = if j = i then f (s.clients j) else s.clients j := rfl

theorem sendTo_rooms (s : ServerState) (i : Nat) (p : OutMsg) :
    (sendTo s i p).rooms = s.rooms := rfl

theorem sendTo_byName (s : ServerState) (i : Nat) (p : OutMsg) :
    (sendTo s i p).byName = s.byName := rfl

theorem sendTo_files (s : ServerState) (i : Nat) (p : OutMsg) :
    (sendTo s i p).files = s.files := rfl

theorem sendTo_clients_ne (s : ServerState) (i : Nat) (p : OutMsg) (j : Nat) (h : j ≠ i) :
    (sendTo s i p).clients j = s.clients j := by
  simp [sendTo, updateClient, h]

theorem sendTo_clients_self (s : ServerState) (i : Nat) (p : OutMsg) :
    (sendTo s i p).clients i =
      { s.clients i with outQ := (s.clients i).outQ ++ [p] } := by
  simp [sendTo, updateClient]

theorem deliver_clients_ne (s : ServerState) (i : Nat) (p : OutMsg) (j : Nat) (h : j ≠ i) :
    (deliver s i p).clients j = s.clients j := by
  simp [deliver, updateClient, h]

theorem deliver_clients_self (s : ServerState) (i : Nat) (p : OutMsg) :
    (deliver s i p).clients i =
      { s.clients i with outQ := deliverQ (s.clients i).outQ p } := by
  simp [deliver, updateClient]

theorem deliver_name (s : ServerState) (i : Nat) (p : OutMsg) (j : Nat) :
    ((deliver s i p).clients j).name = (s.clients j).name := by
  by_cases h : j = i
  · subst h; rw [deliver_clients_self]
  · rw [deliver_clients_ne s i p j h]

theorem deliver_room (s : ServerState) (i : Nat) (p : OutMsg) (j : Nat) :
    ((deliver s i p).clients j).room = (s.clients j).room := by
  by_cases h : j = i
  · subst h; rw [deliver_clients_self]
  · rw [deliver_clients_ne s i p j h]

theorem deliverAll_rooms (l : List Nat) (p : OutMsg) (excl : Option Nat) :
    ∀ t : ServerState, (deliverAll l p excl t).rooms = t.rooms := by
  induction l with
  | nil => intro t; rfl
  | cons a l ih =>
      intro t
      by_cases h : excl = some a <;> simp [deliverAll, List.foldl_cons, h] at ih ⊢ <;>
        exact (ih _)

theorem deliverAll_byName (l : List Nat) (p : OutMsg) (excl : Option Nat) :
    ∀ t : ServerState, (deliverAll l p excl t).byName = t.byName := by
  induction l with
  | nil => intro t; rfl
  | cons a l ih =>
      intro t
      by_cases h : excl = some a <;> simp [deliverAll, List.foldl_cons, h] at ih ⊢ <;>
        exact (ih _)

theorem deliverAll_files (l : List Nat) (p : OutMsg) (excl : Option Nat) :
    ∀ t : ServerState, (deliverAll l p excl t).files = t.files := by
  induction l with
  | nil => intro t; rfl
  | cons a l ih =>
      intro t
      by_cases h : excl = some a <;> simp [deliverAll, List.foldl_cons, h] at ih ⊢ <;>
        exact (ih _)

theorem deliverAll_nextFid (l : List Nat) (p : OutMsg) (excl : Option Nat) :
    ∀ t : ServerState, (deliverAll l p excl t).nextFid = t.nextFid := by
  induction l with
  | nil => intro t; rfl
  | cons a l ih =>
      intro t
      by_cases h : excl = some a <;> simp [deliverAll, List.foldl_cons, h] at ih ⊢ <;>
        exact (ih _)

theorem deliverAll_clients_notMem (l : List Nat) (p : OutMsg) (excl : Option Nat) :
    ∀ (t : ServerState) (j : Nat), j ∉ l →
      (deliverAll l p excl t).clients j = t.clients j := by
  induction l with
  | nil => intro t j _; rfl
  | cons a l ih =>
      intro t j hj
      have hja : j ≠ a := fun h => hj (h ▸ List.mem_cons_self a l)
      have hjl : j ∉ l := fun h => hj (List.mem_cons_of_mem a h)
      by_cases h : excl = some a <;>
        simp only [deliverAll, List.foldl_cons, h, if_pos, if_neg, reduceIte] at ih ⊢
      · exact ih t j hjl
      · rw [ih (deliver t a p) j hjl, deliver_clients_ne t a p j hja]

/-- The central broadcast lemma: a member of the target list is delivered to
exactly once (dropped when its queue is full), everyone else is untouched. -/
theorem deliverAll_clients (p : OutMsg) (excl : Option Nat) :
    ∀ (l : List Nat), l.Nodup → ∀ (t : ServerState) (j : Nat),
      (deliverAll l p excl t).clients j =
        if j ∈ l ∧ excl ≠ some j then
          { t.clients j with outQ := deliverQ (t.clients j).outQ p }
        else t.clients j := by
  intro l
  induction l with
  | nil => intro _ t j; simp [deliverAll]
  | cons a l ih =>
      intro hnd t j
      obtain ⟨hal, hnd'⟩ := List.nodup_cons.mp hnd
      have hfold : deliverAll (a :: l) p excl t
          = deliverAll l p excl (if excl = some a then t else deliver t a p) := rfl
      rw [hfold, ih hnd']
      by_cases hja : j = a
      · subst hja
        have hjl : j ∉ l := hal
        by_cases hex : excl = some j
        · simp [hjl, hex]
        · simp only [if_neg hex, hjl, false_and, if_neg, List.mem_cons, true_or, hex,
            ne_eq, not_false_iff, and_true, if_pos, true_and]
          exact deliver_clients_self t j p
      · have hstep : ((if excl = some a then t else deliver t a p).clients j) = t.clients j := by
          by_cases hex : excl = some a
          · rw [if_pos hex]
          · rw [if_neg hex, deliver_clients_ne t a p j hja]
        rw [hstep]
        simp [List.mem_cons, hja]

/-! ### Association-list lemmas -/

theorem mem_of_alookup {β : Type} {l : List (String × β)} {k : String} {v : β}
    (h : alookup l k = some v) : (k, v) ∈ l := by
  induction l with
  | nil => simp [alookup] at h
  | cons a l ih =>
      obtain ⟨ka, va⟩ := a
      by_cases hk : ka = k
      · subst hk
        simp [alookup] at h
        simp [h]
      · simp [alookup, hk] at h
        exact List.mem_cons_of_mem _ (ih h)

theorem alookup_eq_of_mem {β : Type} {l : List (String × β)} {k : String} {v : β}
    (hnd : (l.map Prod.fst).Nodup) (h : (k, v) ∈ l) : alookup l k = some v := by
  induction l with
  | nil => simp at h
  | cons a l ih =>
      obtain ⟨ka, va⟩ := a
      rcases List.mem_cons.mp h with h1 | h1
      · cases h1
        simp [alookup]
      · have hk : ka ≠ k := by
          intro he
          subst he
          exact (List.nodup_cons.mp hnd).1 (List.mem_map.mpr ⟨(ka, v), h1, rfl⟩)
        simp [alookup, hk]
        exact ih (List.nodup_cons.mp hnd).2 h1

theorem mem_aerase {β : Type} {l : List (String × β)} {k : String} {p : String × β} :
    p ∈ aerase l k ↔ p ∈ l ∧ p.1 ≠ k := by
  simp [aerase, List.mem_filter]

theorem aerase_keys_sublist {β : Type} (l : List (String × β)) (k : String) :
    ((aerase l k).map Prod.fst).Sublist (l.map Prod.fst) :=
  (List.filter_sublist l).map Prod.fst

theorem alookup_aerase_self {β : Type} (l : List (String × β)) (k : String) :
    alookup (aerase l k) k = none := by
  induction l with
  | nil => rfl
  | cons a l ih =>
      by_cases hk : a.1 = k
      · simpa [aerase, hk] using ih
      · simpa [aerase, alookup, hk] using ih

theorem alookup_aerase_ne {β : Type} (l : List (String × β)) (k k' : String) (h : k' ≠ k) :
    alookup (aerase l k) k' = alookup l k' := by
  induction l with
  | nil => rfl
  | cons a l ih =>
      obtain ⟨ka, va⟩ := a
      by_cases hk : ka = k
      · subst hk
        have hkk : ¬ (ka = k') := fun he => h he.symm
        simpa [aerase, alookup, hkk] using ih
      · by_cases hk' : ka = k'
        · subst hk'
          simp [aerase, alookup, hk]
        · simpa [aerase, alookup, hk, hk'] using ih

theorem notMem_keys_aerase {β : Type} (l : List (String × β)) (k : String) :
    k ∉ (aerase l k).map Prod.fst := by
  intro h
  obtain ⟨p, hp, hpk⟩ := List.mem_map.mp h
  exact (mem_aerase.mp hp).2 hpk

theorem ainsert_keys_nodup {β : Type} (l : List (String × β)) (k : String) (v : β)
    (hnd : (l.map Prod.fst).Nodup) : ((ainsert l k v).map Prod.fst).Nodup := by
  have h1 : ((aerase l k).map Prod.fst).Nodup := (aerase_keys_sublist l k).nodup hnd
  have h2 : (ainsert l k v).map Prod.fst = (aerase l k).map Prod.fst ++ [k] := by
    simp [ainsert]
  rw [h2]
  exact List.Nodup.append h1 (List.nodup_singleton k)
    (by
      intro a ha hb
      rw [List.mem_singleton] at hb
      subst hb
      exact notMem_keys_aerase l a ha)

theorem mem_ainsert {β : Type} {l : List (String × β)} {k : String} {v : β}
    {p : String × β} : p ∈ ainsert l k v ↔ (p ∈ l ∧ p.1 ≠ k) ∨ p = (k, v) := by
  simp [ainsert, mem_aerase]

theorem alookup_append {β : Type} (l₁ l₂ : List (String × β)) (k : String) :
    alookup (l₁ ++ l₂) k =
      match alookup l₁ k with
      | some v => some v
      | none => alookup l₂ k := by
  induction l₁ with
  | nil => simp [alookup]
  | cons a t ih =>
      obtain ⟨ka, va⟩ := a
      by_cases hk : ka = k
      · simp [alookup, hk]
      · simp [alookup, hk, ih]

theorem alookup_singleton {β : Type} (k k' : String) (v : β) :
    alookup [(k, v)] k' = if k = k' then some v else none := by
  simp [alookup]

theorem alookup_ainsert_self {β : Type} (l : List (String × β)) (k : String) (v : β) :
    alookup (ainsert l k v) k = some v := by
  rw [ainsert, alookup_append, alookup_aerase_self, alookup_singleton, if_pos rfl]

theorem alookup_ainsert_ne {β : Type} (l : List (String × β)) (k k' : String) (v : β)
    (h : k' ≠ k) : alookup (ainsert l k v) k' = alookup l k' := by
  rw [ainsert, alookup_append, alookup_aerase_ne l k k' h, alookup_singleton,
    if_neg (fun he => h he.symm)]
  cases alookup l k' <;> rfl

/-! ### Room-map lemmas -/

theorem alookup_mapAt {β : Type} (rs : List (String × β)) (r : String) (f : β → β)
    (k : String) :
    alookup (mapAt rs r f) k =
      if k = r then (alookup rs k).map f else alookup rs k := by
  induction rs with
  | nil => by_cases h : k = r <;> simp [alookup, mapAt, h]
  | cons a t ih =>
      obtain ⟨ka, va⟩ := a
      simp only [mapAt, List.map_cons] at ih ⊢
      by_cases har : ka = r
      · subst har
        have hhead : (if ((ka, va) : String × β).1 = ka then
            (((ka, va) : String × β).1, f ((ka, va) : String × β).2)
            else ((ka, va) : String × β)) = (ka, f va) := by simp
        rw [hhead]
        by_cases hk : k = ka
        · subst hk
          simp [alookup]
        · have hk' : ¬ ka = k := fun he => hk he.symm
          simp only [alookup, if_neg hk', if_neg hk]
          rw [ih, if_neg hk]
      · have hhead : (if ((ka, va) : String × β).1 = r then
            (((ka, va) : String × β).1, f ((ka, va) : String × β).2)
            else ((ka, va) : String × β)) = (ka, va) := by simp [har]
        rw [hhead]
        by_cases hk : ka = k
        · subst hk
          have hkr : ¬ ka = r := har
          simp [alookup, hkr]
        · simp only [alookup, if_neg hk]
          rw [ih]

theorem keys_mapAt {β : Type} (rs : List (String × β)) (r : String) (f : β → β) :
    (mapAt rs r f).map Prod.fst = rs.map Prod.fst := by
  induction rs with
  | nil => rfl
  | cons a t ih =>
      by_cases h : a.1 = r <;> simp [mapAt, h] at ih ⊢ <;> exact ih

theorem mem_mapAt {β : Type} {rs : List (String × β)} {r : String} {f : β → β}
    {p : String × β} :
    p ∈ mapAt rs r f ↔ ∃ q ∈ rs, p = if q.1 = r then (q.1, f q.2) else q := by
  simp only [mapAt, List.mem_map]
  constructor
  · rintro ⟨q, hq, rfl⟩; exact ⟨q, hq, rfl⟩
  · rintro ⟨q, hq, rfl⟩; exact ⟨q, hq, rfl⟩

theorem roomDiscard_keys (rs : List (String × List Nat)) (r : String) (cid : Nat) :
    (roomDiscard rs r cid).map Prod.fst = rs.map Prod.fst :=
  keys_mapAt rs r (setDiscard cid)

theorem alookup_roomDiscard (rs : List (String × List Nat)) (r : String) (cid : Nat)
    (k : String) :
    alookup (roomDiscard rs r cid) k =
      if k = r then (alookup rs k).map (setDiscard cid) else alookup rs k :=
  alookup_mapAt rs r (setDiscard cid) k

theorem roomAdd_keys_mem (rs : List (String × List Nat)) (r : String) (cid : Nat)
    (h : (alookup rs r).isSome) :
    (roomAdd rs r cid).map Prod.fst = rs.map Prod.fst := by
  rw [roomAdd, if_pos h]
  exact keys_mapAt rs r (setAdd cid)

theorem roomAdd_keys_new (rs : List (String × List Nat)) (r : String) (cid : Nat)
    (h : ¬ (alookup rs r).isSome) :
    (roomAdd rs r cid).map Prod.fst = rs.map Prod.fst ++ [r] := by
  rw [roomAdd, if_neg h]
  simp

theorem alookup_roomAdd_self (rs : List (String × List Nat)) (r : String) (cid : Nat) :
    alookup (roomAdd rs r cid) r =
      some (match alookup rs r with
            | some ms => setAdd cid ms
            | none => [cid]) := by
  by_cases h : (alookup rs r).isSome
  · obtain ⟨ms, hms⟩ := Option.isSome_iff_exists.mp h
    rw [roomAdd, if_pos h, alookup_mapAt, if_pos rfl, hms]
    rfl
  · have hn : alookup rs r = none := Option.not_isSome_iff_eq_none.mp h
    rw [roomAdd, if_neg h, alookup_append, hn, alookup_singleton, if_pos rfl]

theorem alookup_roomAdd_ne (rs : List (String × List Nat)) (r : String) (cid : Nat)
    (k : String) (hk : k ≠ r) :
    alookup (roomAdd rs r cid) k = alookup rs k := by
  by_cases h : (alookup rs r).isSome
  · rw [roomAdd, if_pos h, alookup_mapAt, if_neg hk]
  · rw [roomAdd, if_neg h, alookup_append, alookup_singleton,
      if_neg (fun he => hk he.symm)]
    cases alookup rs k <;> rfl

theorem alookup_isSome_of_mem {β : Type} {l : List (String × β)} {p : String × β}
    (h : p ∈ l) : (alookup l p.1).isSome := by
  induction l with
  | nil => simp at h
  | cons a t ih =>
      obtain ⟨ka, va⟩ := a
      rcases List.mem_cons.mp h with h1 | h1
      · subst h1; simp [alookup]
      · by_cases hk : ka = p.1
        · simp [alookup, hk]
        · simpa [alookup, hk] using ih h1

theorem mem_roomAdd {rs : List (String × List Nat)} {r : String} {cid : Nat}
    {p : String × List Nat} :
    p ∈ roomAdd rs r cid →
      (∃ q ∈ rs, p = if q.1 = r then (q.1, setAdd cid q.2) else q)
      ∨ p = (r, [cid]) := by
  intro hp
  by_cases h : (alookup rs r).isSome
  · rw [roomAdd, if_pos h] at hp
    obtain ⟨q, hq, rfl⟩ := mem_mapAt.mp hp
    exact Or.inl ⟨q, hq, rfl⟩
  · rw [roomAdd, if_neg h] at hp
    rcases List.mem_append.mp hp with h1 | h1
    · refine Or.inl ⟨p, h1, ?_⟩
      have hne : p.1 ≠ r := fun he => h (he ▸ alookup_isSome_of_mem h1)
      simp [hne]
    · exact Or.inr (List.mem_singleton.mp h1)

/-! ### Projection (frame) lemmas for the composite operations -/

theorem deliverAll_name (l : List Nat) (p : OutMsg) (excl : Option Nat) :
    ∀ (t : ServerState) (j : Nat),
      ((deliverAll l p excl t).clients j).name = (t.clients j).name := by
  induction l with
  | nil => intro t j; rfl
  | cons a l ih =>
      intro t j
      have hfold : deliverAll (a :: l) p excl t
          = deliverAll l p excl (if excl = some a then t else deliver t a p) := rfl
      rw [hfold, ih]
      by_cases hex : excl = some a
      · rw [if_pos hex]
      · rw [if_neg hex, deliver_name]

theorem deliverAll_room (l : List Nat) (p : OutMsg) (excl : Option Nat) :
    ∀ (t : ServerState) (j : Nat),
      ((deliverAll l p excl t).clients j).room = (t.clients j).room := by
  induction l with
  | nil => intro t j; rfl
  | cons a l ih =>
      intro t j
      have hfold : deliverAll (a :: l) p excl t
          = deliverAll l p excl (if excl = some a then t else deliver t a p) := rfl
      rw [hfold, ih]
      by_cases hex : excl = some a
      · rw [if_pos hex]
      · rw [if_neg hex, deliver_room]

theorem broadcast_rooms (s : ServerState) (room : String) (p : OutMsg)
    (excl : Option Nat) : (broadcast s room p excl).rooms = s.rooms :=
  deliverAll_rooms _ p excl s

theorem broadcast_byName (s : ServerState) (room : String) (p : OutMsg)
    (excl : Option Nat) : (broadcast s room p excl).byName = s.byName :=
  deliverAll_byName _ p excl s

theorem broadcast_files (s : ServerState) (room : String) (p : OutMsg)
    (excl : Option Nat) : (broadcast s room p excl).files = s.files :=
  deliverAll_files _ p excl s

theorem broadcast_nextFid (s : ServerState) (room : String) (p : OutMsg)
    (excl : Option Nat) : (broadcast s room p excl).nextFid = s.nextFid :=
  deliverAll_nextFid _ p excl s

theorem broadcast_name (s : ServerState) (room : String) (p : OutMsg)
    (excl : Option Nat) (j : Nat) :
    ((broadcast s room p excl).clients j).name = (s.clients j).name :=
  deliverAll_name _ p excl s j

theorem broadcast_room (s : ServerState) (room : String) (p : OutMsg)
    (excl : Option Nat) (j : Nat) :
    ((broadcast s room p excl).clients j).room = (s.clients j).room :=
  deliverAll_room _ p excl s j

theorem sendTo_name (s : ServerState) (i : Nat) (p : OutMsg) (j : Nat) :
    ((sendTo s i p).clients j).name = (s.clients j).name := by
  by_cases h : j = i
  · subst h; rw [sendTo_clients_self]
  · rw [sendTo_clients_ne s i p j h]

theorem sendTo_room (s : ServerState) (i : Nat) (p : OutMsg) (j : Nat) :
    ((sendTo s i p).clients j).room = (s.clients j).room := by
  by_cases h : j = i
  · subst h; rw [sendTo_clients_self]
  · rw [sendTo_clients_ne s i p j h]

theorem sendTo_nextFid (s : ServerState) (i : Nat) (p : OutMsg) :
    (sendTo s i p).nextFid = s.nextFid := rfl

/-! ### The registry invariant (claim C4's properties, plus the key
bookkeeping needed to push them through every handler) -/

theorem regInv_transfer {s t : ServerState} (hro : t.rooms = s.rooms)
    (hbn : t.byName = s.byName)
    (hrm : ∀ i, (t.clients i).room = (s.clients i).room)
    (hnm : ∀ i, (t.clients i).name = (s.clients i).name)
    (h : RegInv s) : RegInv t := by
  refine ⟨?_, ?_, ?_, ?_, ?_, ?_⟩
  · rw [hro]; exact h.roomKeys
  · rw [hbn]; exact h.nameKeys
  · rw [hro]; exact h.roomsNE
  · rw [hro]; exact h.memsND
  · rw [hro]; intro p hp i hi; rw [hrm]; exact h.roomField p hp i hi
  · rw [hbn]; intro p hp; rw [hnm]; exact h.nameField p hp

theorem regInv_sendTo {s : ServerState} (h : RegInv s) (i : Nat) (p : OutMsg) :
    RegInv (sendTo s i p) :=
  regInv_transfer (sendTo_rooms s i p) (sendTo_byName s i p)
    (fun j => sendTo_room s i p j) (fun j => sendTo_name s i p j) h

theorem regInv_broadcast {s : ServerState} (h : RegInv s) (room : String) (p : OutMsg)
    (excl : Option Nat) : RegInv (broadcast s room p excl) :=
  regInv_transfer (broadcast_rooms s room p excl) (broadcast_byName s room p excl)
    (fun j => broadcast_room s room p excl j) (fun j => broadcast_name s room p excl j) h

/-! ### Small auxiliary lemmas -/

theorem updateClient_rooms (s : ServerState) (i : Nat) (f : Client → Client) :
    (updateClient s i f).rooms = s.rooms := rfl

theorem updateClient_byName (s : ServerState) (i : Nat) (f : Client → Client) :
    (updateClient s i f).byName = s.byName := rfl

theorem updateClient_files (s : ServerState) (i : Nat) (f : Client → Client) :
    (updateClient s i f).files = s.files := rfl

theorem mem_setAdd {cid i : Nat} {ms : List Nat} :
    i ∈ setAdd cid ms ↔ i ∈ ms ∨ i = cid := by
  by_cases h : cid ∈ ms
  · simp only [setAdd, if_pos h]
    constructor
    · exact Or.inl
    · rintro (h1 | rfl) <;> [exact h1; exact h]
  · simp [setAdd, if_neg h, List.mem_append]

theorem setAdd_nodup {cid : Nat} {ms : List Nat} (h : ms.Nodup) : (setAdd cid ms).Nodup := by
  by_cases hm : cid ∈ ms
  · simpa [setAdd, hm] using h
  · simp only [setAdd, if_neg hm]
    exact List.Nodup.append h (List.nodup_singleton cid)
      (fun a ha hb => by rw [List.mem_singleton] at hb; subst hb; exact hm ha)

theorem setAdd_ne_nil (cid : Nat) (ms : List Nat) : setAdd cid ms ≠ [] := by
  by_cases hm : cid ∈ ms
  · simp only [setAdd, if_pos hm]
    intro he
    subst he
    simp at hm
  · simp [setAdd, if_neg hm]

theorem mem_setDiscard {cid i : Nat} {ms : List Nat} :
    i ∈ setDiscard cid ms ↔ i ∈ ms ∧ i ≠ cid := by
  simp [setDiscard, List.mem_filter]

theorem setDiscard_nodup {cid : Nat} {ms : List Nat} (h : ms.Nodup) :
    (setDiscard cid ms).Nodup :=
  List.Nodup.filter _ h

theorem alookup_none_iff_keys {β : Type} (l : List (String × β)) (k : String) :
    alookup l k = none ↔ k ∉ l.map Prod.fst := by
  induction l with
  | nil => simp [alookup]
  | cons a t ih =>
      obtain ⟨ka, va⟩ := a
      by_cases hk : ka = k
      · subst hk
        simp [alookup]
      · have h1 : alookup ((ka, va) :: t) k = alookup t k := by simp [alookup, hk]
        have hk2 : ¬ k = ka := fun he => hk he.symm
        rw [h1, ih]
        simp [hk2]

theorem mem_dropIfEmpty {rs : List (String × List Nat)} {r : String}
    {p : String × List Nat} (h : p ∈ dropIfEmpty rs r) : p ∈ rs := by
  by_cases he : alookup rs r = some []
  · rw [dropIfEmpty, if_pos he] at h
    exact (mem_aerase.mp h).1
  · rwa [dropIfEmpty, if_neg he] at h

theorem dropIfEmpty_keys_sublist (rs : List (String × List Nat)) (r : String) :
    ((dropIfEmpty rs r).map Prod.fst).Sublist (rs.map Prod.fst) := by
  by_cases he : alookup rs r = some []
  · rw [dropIfEmpty, if_pos he]
    exact aerase_keys_sublist rs r
  · rw [dropIfEmpty, if_neg he]

theorem alookup_dropIfEmpty_ne (rs : List (String × List Nat)) (r k : String)
    (h : k ≠ r) : alookup (dropIfEmpty rs r) k = alookup rs k := by
  by_cases he : alookup rs r = some []
  · rw [dropIfEmpty, if_pos he, alookup_aerase_ne rs r k h]
  · rw [dropIfEmpty, if_neg he]

/-- After discarding `cid` from room `r` and garbage-collecting `r`, the room
list still satisfies every per-room invariant, and `cid` is a member of no
room, provided `cid`'s room field is `r`. -/
theorem discardDrop_facts {s : ServerState} (h : RegInv s) (r : String) (cid : Nat)
    (hcr : (s.clients cid).room = some r) :
    ((dropIfEmpty (roomDiscard s.rooms r cid) r).map Prod.fst).Nodup
    ∧ (∀ p ∈ dropIfEmpty (roomDiscard s.rooms r cid) r, p.2 ≠ [])
    ∧ (∀ p ∈ dropIfEmpty (roomDiscard s.rooms r cid) r, p.2.Nodup)
    ∧ (∀ p ∈ dropIfEmpty (roomDiscard s.rooms r cid) r, ∀ i ∈ p.2,
        i ≠ cid ∧ (s.clients i).room = some p.1) := by
  have hk1 : ((roomDiscard s.rooms r cid).map Prod.fst).Nodup := by
    rw [roomDiscard_keys]; exact h.roomKeys
  refine ⟨(dropIfEmpty_keys_sublist _ r).nodup hk1, ?_, ?_, ?_⟩
  · intro p hp
    have hp1 : p ∈ roomDiscard s.rooms r cid := mem_dropIfEmpty hp
    obtain ⟨q, hq, hpe⟩ := mem_mapAt.mp hp1
    by_cases hqr : q.1 = r
    · rw [if_pos hqr] at hpe
      -- the `r` entry survived garbage collection, so it is non-empty
      by_cases he : alookup (roomDiscard s.rooms r cid) r = some []
      · exfalso
        rw [dropIfEmpty, if_pos he] at hp
        have := (mem_aerase.mp hp).2
        rw [hpe] at this
        exact this hqr
      · intro hnil
        apply he
        have : alookup (roomDiscard s.rooms r cid) r = some p.2 := by
          have := alookup_eq_of_mem hk1 (show (p.1, p.2) ∈ roomDiscard s.rooms r cid by
            simpa using hp1)
          rw [hpe] at this ⊢
          simpa [hqr] using this
        rw [this, hnil]
    · rw [if_neg hqr] at hpe
      subst hpe
      exact h.roomsNE p hq
  · intro p hp
    obtain ⟨q, hq, hpe⟩ := mem_mapAt.mp (mem_dropIfEmpty hp)
    by_cases hqr : q.1 = r
    · rw [if_pos hqr] at hpe
      rw [hpe]
      exact setDiscard_nodup (h.memsND q hq)
    · rw [if_neg hqr] at hpe
      rw [hpe]
      exact h.memsND q hq
  · intro p hp i hi
    obtain ⟨q, hq, hpe⟩ := mem_mapAt.mp (mem_dropIfEmpty hp)
    by_cases hqr : q.1 = r
    · rw [if_pos hqr] at hpe
      subst hpe
      obtain ⟨hiq, hic⟩ := mem_setDiscard.mp hi
      exact ⟨hic, by rw [h.roomField q hq i hiq, hqr]⟩
    · rw [if_neg hqr] at hpe
      subst hpe
      have hf := h.roomField p hq i hi
      refine ⟨?_, hf⟩
      intro he
      subst he
      rw [hcr] at hf
      exact hqr (Option.some_injective _ hf.symm)

/-! ### Shape lemmas for `joinRoom` -/

theorem joinRoom_stay (s : ServerState) (cid : Nat) (room : String)
    (h : (s.clients cid).room = some room) :
    joinRoom s cid room = sendTo s cid (.info ("You are already in room " ++ room)) := by
  simp [joinRoom, h]

theorem joinRoom_fresh (s : ServerState) (cid : Nat) (room : String)
    (h : (s.clients cid).room = none) :
    (joinRoom s cid room).rooms = roomAdd s.rooms room cid
    ∧ (joinRoom s cid room).byName = s.byName
    ∧ (joinRoom s cid room).files = s.files
    ∧ (joinRoom s cid room).nextFid = s.nextFid
    ∧ (∀ i, ((joinRoom s cid room).clients i).name = (s.clients i).name)
    ∧ (∀ i, ((joinRoom s cid room).clients i).room =
        if i = cid then some room else (s.clients i).room) := by
  have hne : ¬ ((s.clients cid).room = some room) := by rw [h]; simp
  refine ⟨?_, ?_, ?_, ?_, ?_, ?_⟩
  · simp [joinRoom, h, hne, broadcast_rooms, sendTo_rooms, updateClient]
  · simp [joinRoom, h, hne, broadcast_byName, sendTo_byName, updateClient]
  · simp [joinRoom, h, hne, broadcast_files, sendTo_files, updateClient]
  · simp [joinRoom, h, hne, broadcast_nextFid, sendTo_nextFid, updateClient]
  · intro i
    simp [joinRoom, h, hne, broadcast_name, sendTo_name, updateClient]
    by_cases hic : i = cid <;> simp [hic, broadcast_name, broadcast_room]
  · intro i
    simp [joinRoom, h, hne, broadcast_room, sendTo_room, updateClient]
    by_cases hic : i = cid <;> simp [hic, broadcast_name, broadcast_room]

theorem joinRoom_move (s : ServerState) (cid : Nat) (room o : String)
    (ho : (s.clients cid).room = some o) (hne : o ≠ room) :
    (joinRoom s cid room).rooms =
        roomAdd (dropIfEmpty (roomDiscard s.rooms o cid) o) room cid
    ∧ (joinRoom s cid room).byName = s.byName
    ∧ (joinRoom s cid room).files = s.files
    ∧ (joinRoom s cid room).nextFid = s.nextFid
    ∧ (∀ i, ((joinRoom s cid room).clients i).name = (s.clients i).name)
    ∧ (∀ i, ((joinRoom s cid room).clients i).room =
        if i = cid then some room else (s.clients i).room) := by
  have hnee : ¬ ((s.clients cid).room = some room) := by
    rw [ho]; simp [hne]
  refine ⟨?_, ?_, ?_, ?_, ?_, ?_⟩
  · simp [joinRoom, ho, hnee, hne, dropIfEmptyState, broadcast_rooms, sendTo_rooms,
      updateClient]
  · simp [joinRoom, ho, hnee, hne, dropIfEmptyState, broadcast_byName, sendTo_byName,
      updateClient]
  · simp [joinRoom, ho, hnee, hne, dropIfEmptyState, broadcast_files, sendTo_files,
      updateClient]
  · simp [joinRoom, ho, hnee, hne, dropIfEmptyState, broadcast_nextFid, sendTo_nextFid,
      updateClient]
  · intro i
    simp [joinRoom, ho, hnee, hne, dropIfEmptyState, broadcast_name, sendTo_name,
      updateClient]
    by_cases hic : i = cid <;> simp [hic, broadcast_name, broadcast_room]
  · intro i
    simp [joinRoom, ho, hnee, hne, dropIfEmptyState, broadcast_room, sendTo_room,
      updateClient]
    by_cases hic : i = cid <;> simp [hic, broadcast_name, broadcast_room]

/-! ### Invariant preservation -/

/-- If the room list `rs` satisfies the per-room invariants relative to `s`,
`cid` belongs to no member set of `rs`, and `t` is `s` after setting `cid`'s
room field to `room` and replacing the room map by `roomAdd rs room cid`
(names and the name table untouched), then `t` satisfies the invariant. -/
theorem regInv_after_add {s t : ServerState} {rs : List (String × List Nat)}
    {cid : Nat} {room : String}
    (hkeys : (rs.map Prod.fst).Nodup)
    (hne : ∀ p ∈ rs, p.2 ≠ [])
    (hnd : ∀ p ∈ rs, p.2.Nodup)
    (hfld : ∀ p ∈ rs, ∀ i ∈ p.2, i ≠ cid ∧ (s.clients i).room = some p.1)
    (hro : t.rooms = roomAdd rs room cid)
    (hbn : t.byName = s.byName)
    (hrm : ∀ i, (t.clients i).room = if i = cid then some room else (s.clients i).room)
    (hnm : ∀ i, (t.clients i).name = (s.clients i).name)
    (hnk : (s.byName.map Prod.fst).Nodup)
    (hnf : ∀ p ∈ s.byName, (s.clients p.2).name = some p.1) : RegInv t := by
  refine ⟨?_, ?_, ?_, ?_, ?_, ?_⟩
  · rw [hro]
    by_cases h : (alookup rs room).isSome
    · rw [roomAdd_keys_mem rs room cid h]; exact hkeys
    · rw [roomAdd_keys_new rs room cid h]
      refine List.Nodup.append hkeys (List.nodup_singleton room) ?_
      intro a ha hb
      rw [List.mem_singleton] at hb
      subst hb
      exact ((alookup_none_iff_keys rs a).mp (Option.not_isSome_iff_eq_none.mp h)) ha
  · rw [hbn]; exact hnk
  · rw [hro]
    intro p hp
    rcases mem_roomAdd hp with ⟨q, hq, hpe⟩ | hpe
    · by_cases hqr : q.1 = room
      · rw [if_pos hqr] at hpe
        rw [hpe]
        exact fun hc => setAdd_ne_nil cid q.2 hc
      · rw [if_neg hqr] at hpe
        subst hpe
        exact hne p hq
    · rw [hpe]
      simp
  · rw [hro]
    intro p hp
    rcases mem_roomAdd hp with ⟨q, hq, hpe⟩ | hpe
    · by_cases hqr : q.1 = room
      · rw [if_pos hqr] at hpe
        rw [hpe]
        exact setAdd_nodup (hnd q hq)
      · rw [if_neg hqr] at hpe
        subst hpe
        exact hnd p hq
    · rw [hpe]
      simp
  · rw [hro]
    intro p hp i hi
    rcases mem_roomAdd hp with ⟨q, hq, hpe⟩ | hpe
    · by_cases hqr : q.1 = room
      · rw [if_pos hqr] at hpe
        subst hpe
        rcases mem_setAdd.mp hi with hiq | rfl
        · obtain ⟨hic, hf⟩ := hfld q hq i hiq
          rw [hrm i, if_neg hic, hf, hqr]
        · rw [hrm i, if_pos rfl]
          simp [hqr]
      · rw [if_neg hqr] at hpe
        subst hpe
        obtain ⟨hic, hf⟩ := hfld p hq i hi
        rw [hrm i, if_neg hic, hf]
    · rw [hpe] at hi ⊢
      rw [List.mem_singleton] at hi
      subst hi
      rw [hrm i, if_pos rfl]
  · rw [hbn]
    intro p hp
    rw [hnm p.2]
    exact hnf p hp

theorem regInv_joinRoom {s : ServerState} (h : RegInv s) (cid : Nat) (room : String) :
    RegInv (joinRoom s cid room) := by
  rcases hrf : (s.clients cid).room with _ | o
  · -- no old room: straight add
    obtain ⟨h1, h2, _, _, h5, h6⟩ := joinRoom_fresh s cid room hrf
    refine regInv_after_add h.roomKeys h.roomsNE h.memsND ?_ h1 h2 h6 h5
      h.nameKeys h.nameField
    intro p hp i hi
    refine ⟨?_, h.roomField p hp i hi⟩
    intro he
    subst he
    rw [h.roomField p hp i hi] at hrf
    cases hrf
  · by_cases ho : o = room
    · subst ho
      rw [joinRoom_stay s cid o hrf]
      exact regInv_sendTo h cid _
    · obtain ⟨h1, h2, _, _, h5, h6⟩ := joinRoom_move s cid room o hrf ho
      obtain ⟨hk, hne', hnd', hfld'⟩ := discardDrop_facts h o cid hrf
      exact regInv_after_add hk hne' hnd' hfld' h1 h2 h6 h5 h.nameKeys h.nameField

theorem regInv_cleanup {s : ServerState} (h : RegInv s) (cid : Nat) :
    RegInv (cleanupClient s cid) := by
  -- the room phase
  have hphase1 : ∀ t : ServerState,
      t.clients = s.clients →
      (t.rooms.map Prod.fst).Nodup →
      (∀ p ∈ t.rooms, p.2 ≠ []) →
      (∀ p ∈ t.rooms, p.2.Nodup) →
      (∀ p ∈ t.rooms, ∀ i ∈ p.2, (s.clients i).room = some p.1) →
      t.byName = s.byName →
      RegInv (match (s.clients cid).name with
        | some n => if alookup t.byName n = some cid
            then { t with byName := aerase t.byName n } else t
        | none => t) := by
    intro t hc hk hne hnd hfld hbn
    have base : RegInv t := by
      refine ⟨hk, ?_, hne, hnd, ?_, ?_⟩
      · rw [hbn]; exact h.nameKeys
      · intro p hp i hi
        rw [hc]
        exact hfld p hp i hi
      · rw [hbn]
        intro p hp
        rw [hc]
        exact h.nameField p hp
    rcases (s.clients cid).name with _ | n
    · exact base
    · show RegInv (if alookup t.byName n = some cid
          then { t with byName := aerase t.byName n } else t)
      by_cases hl : alookup t.byName n = some cid
      · rw [if_pos hl]
        refine ⟨base.roomKeys, ?_, base.roomsNE, base.memsND, base.roomField, ?_⟩
        · exact (aerase_keys_sublist t.byName n).nodup base.nameKeys
        · intro p hp
          exact base.nameField p (mem_aerase.mp hp).1
      · rw [if_neg hl]
        exact base
  rcases hrf : (s.clients cid).room with _ | r
  · -- no room to leave
    show RegInv (cleanupClient s cid)
    rw [cleanupClient, hrf]
    exact hphase1 s rfl h.roomKeys h.roomsNE h.memsND
      (fun p hp i hi => h.roomField p hp i hi) rfl
  · obtain ⟨hk, hne', hnd', hfld'⟩ := discardDrop_facts h r cid hrf
    show RegInv (cleanupClient s cid)
    rw [cleanupClient, hrf]
    exact hphase1 (dropIfEmptyState { s with rooms := roomDiscard s.rooms r cid } r)
      rfl hk hne' hnd' (fun p hp i hi => (hfld' p hp i hi).2) rfl


/-- Binding a (validated) name to `cid` preserves the invariant, provided no
current name-table entry points at `cid`. -/
theorem regInv_helloBind {s1 : ServerState} (base : RegInv s1) (cid : Nat) (name : String)
    (hnocid : ∀ p ∈ s1.byName, p.2 ≠ cid) :
    RegInv (helloBind s1 cid name) := by
  have hs3 : RegInv { updateClient s1 cid (fun c => { c with name := some name }) with
      byName := ainsert s1.byName name cid } := by
    refine ⟨base.roomKeys, ainsert_keys_nodup _ name cid base.nameKeys, base.roomsNE,
      base.memsND, ?_, ?_⟩
    · intro p hp i hi
      have hfr := base.roomField p hp i hi
      by_cases hic : i = cid
      · subst hic
        simpa [updateClient] using hfr
      · simpa [updateClient, hic] using hfr
    · intro p hp
      rcases mem_ainsert.mp hp with ⟨hmem, _⟩ | hpe
      · have hnc := hnocid p hmem
        have := base.nameField p hmem
        simpa [updateClient, hnc] using this
      · subst hpe
        simp [updateClient]
  have hs4 := regInv_sendTo hs3 cid
    (.info ("You are logged in as " ++ name ++ ". Use join to pick a room."))
  show RegInv (helloBind s1 cid name)
  rw [helloBind]
  by_cases hrm : ((sendTo { updateClient s1 cid (fun c => { c with name := some name }) with
      byName := ainsert (updateClient s1 cid
        (fun c => { c with name := some name })).byName name cid } cid
      (.info ("You are logged in as " ++ name ++ ". Use join to pick a room."))).clients
        cid).room = none
  · rw [if_pos hrm]
    exact regInv_joinRoom hs4 cid defaultRoom
  · rw [if_neg hrm]
    exact hs4

theorem regInv_helloRelease {s : ServerState} (h : RegInv s) (cid : Nat) :
    RegInv (helloRelease s cid) ∧ ∀ p ∈ (helloRelease s cid).byName, p.2 ≠ cid := by
  rcases hon : (s.clients cid).name with _ | oldName
  · simp only [helloRelease, hon]
    refine ⟨h, ?_⟩
    intro p hp hpc
    have := h.nameField p hp
    rw [hpc, hon] at this
    cases this
  · simp only [helloRelease, hon]
    by_cases hl : alookup s.byName oldName = some cid
    · rw [if_pos hl]
      refine ⟨⟨h.roomKeys, (aerase_keys_sublist s.byName oldName).nodup h.nameKeys,
        h.roomsNE, h.memsND, h.roomField,
        fun p hp => h.nameField p (mem_aerase.mp hp).1⟩, ?_⟩
      intro p hp hpc
      obtain ⟨hmem, hne⟩ := mem_aerase.mp hp
      have := h.nameField p hmem
      rw [hpc, hon] at this
      exact hne (Option.some_injective _ this.symm)
    · rw [if_neg hl]
      refine ⟨h, ?_⟩
      intro p hp hpc
      have := h.nameField p hp
      rw [hpc, hon] at this
      have hk : p.1 = oldName := Option.some_injective _ this.symm
      apply hl
      rw [← hk]
      exact alookup_eq_of_mem h.nameKeys (by
        obtain ⟨pk, pv⟩ := p
        simp only at hpc
        subst hpc
        exact hp)

theorem regInv_handleHello {s : ServerState} (h : RegInv s) (cid : Nat)
    (rawName : String) : RegInv (handleHello s cid rawName) := by
  rw [handleHello]
  by_cases hv : badName (pyStrip rawName)
  · rw [if_pos hv]
    exact regInv_sendTo h cid _
  · rw [if_neg hv]
    by_cases ht : nameTaken s (pyStrip rawName) cid
    · rw [if_pos ht]
      exact regInv_sendTo h cid _
    · rw [if_neg ht]
      obtain ⟨hrel, hnocid⟩ := regInv_helloRelease h cid
      exact regInv_helloBind hrel cid (pyStrip rawName) hnocid

theorem regInv_handleJoin {s : ServerState} (h : RegInv s) (cid : Nat)
    (rawRoom : String) : RegInv (handleJoin s cid rawRoom) := by
  rw [handleJoin]
  by_cases hn : (s.clients cid).name = none
  · rw [if_pos hn]
    exact regInv_sendTo h cid _
  · rw [if_neg hn]
    by_cases hr : pyStrip rawRoom = "" ∨ 40 < (pyStrip rawRoom).length
    · rw [if_pos hr]
      exact regInv_sendTo h cid _
    · rw [if_neg hr]
      exact regInv_joinRoom h cid (pyStrip rawRoom)

theorem regInv_handleMsg {s : ServerState} (h : RegInv s) (cid : Nat)
    (rawText : String) : RegInv (handleMsg s cid rawText) := by
  rw [handleMsg]
  by_cases hn : (s.clients cid).name = none
  · rw [if_pos hn]
    exact regInv_sendTo h cid _
  · rw [if_neg hn]
    by_cases hr : (s.clients cid).room = none
    · rw [if_pos hr]
      exact regInv_sendTo h cid _
    · rw [if_neg hr]
      by_cases he : rstripNl rawText = ""
      · rw [if_pos he]
        exact h
      · rw [if_neg he]
        by_cases hl : 2000 < (rstripNl rawText).length
        · rw [if_pos hl]
          exact regInv_sendTo h cid _
        · rw [if_neg hl]
          exact regInv_broadcast h _ _ _

theorem regInv_handlePm {s : ServerState} (h : RegInv s) (cid : Nat)
    (rawTo rawText : String) : RegInv (handlePm s cid rawTo rawText) := by
  rw [handlePm]
  by_cases hn : (s.clients cid).name = none
  · rw [if_pos hn]
    exact regInv_sendTo h cid _
  · rw [if_neg hn]
    by_cases hf : pyStrip rawTo = "" ∨ rstripNl rawText = ""
    · rw [if_pos hf]
      exact regInv_sendTo h cid _
    · rw [if_neg hf]
      rcases hd : alookup s.byName (pyStrip rawTo) with _ | dst
      · exact regInv_sendTo h cid _
      · exact regInv_sendTo (regInv_sendTo h dst _) cid _

theorem regInv_handleListRooms {s : ServerState} (h : RegInv s) (cid : Nat) :
    RegInv (handleListRooms s cid) :=
  regInv_sendTo h cid _

theorem regInv_handleListUsers {s : ServerState} (h : RegInv s) (cid : Nat) :
    RegInv (handleListUsers s cid) := by
  rw [handleListUsers]
  rcases (s.clients cid).room with _ | r
  · exact regInv_sendTo h cid _
  · exact regInv_sendTo h cid _

theorem regInv_handleFileStart {s : ServerState} (h : RegInv s) (cid : Nat)
    (rawFilename : String) (size : Int) :
    RegInv (handleFileStart s cid rawFilename size) := by
  rw [handleFileStart]
  by_cases ha : !fileAuthed s cid
  · rw [if_pos ha]
    exact regInv_sendTo h cid _
  · rw [if_neg ha]
    by_cases hv : (pyStrip rawFilename).take 200 = "" ∨ size < 0 ∨ 200 * 1024 * 1024 < size
    · rw [if_pos hv]
      exact regInv_sendTo h cid _
    · rw [if_neg hv]
      refine regInv_broadcast (regInv_sendTo ?_ cid _) _ _ _
      exact @regInv_transfer s _ rfl rfl (fun _ => rfl) (fun _ => rfl) h

theorem regInv_handleFileChunk {s : ServerState} (h : RegInv s) (cid : Nat)
    (rawId : String) (seq : Int) (data : String) :
    RegInv (handleFileChunk s cid rawId seq data) := by
  rw [handleFileChunk]
  by_cases ha : !fileAuthed s cid
  · rw [if_pos ha]
    exact regInv_sendTo h cid _
  · rw [if_neg ha]
    rcases hmf : alookup s.files (pyStrip rawId) with _ | meta
    · exact regInv_sendTo h cid _
    · show RegInv (if some meta.fromName ≠ (s.clients cid).name ∨
            some meta.room ≠ (s.clients cid).room then
          sendTo s cid (.error "Forbidden file_chunk")
        else if 200000 < data.length then sendTo s cid (.error "Chunk too large")
        else if !b64Valid data then sendTo s cid (.error "Invalid base64")
        else broadcast s meta.room
          (.fileChunkN (pyStrip rawId) seq data (nameStr (s.clients cid).name)) (some cid))
      by_cases hm : some meta.fromName ≠ (s.clients cid).name ∨
          some meta.room ≠ (s.clients cid).room
      · rw [if_pos hm]
        exact regInv_sendTo h cid _
      · rw [if_neg hm]
        by_cases hl : 200000 < data.length
        · rw [if_pos hl]
          exact regInv_sendTo h cid _
        · rw [if_neg hl]
          by_cases hb : !b64Valid data
          · rw [if_pos hb]
            exact regInv_sendTo h cid _
          · rw [if_neg hb]
            exact regInv_broadcast h _ _ _

theorem regInv_handleFileEnd {s : ServerState} (h : RegInv s) (cid : Nat)
    (rawId : String) : RegInv (handleFileEnd s cid rawId) := by
  rw [handleFileEnd]
  by_cases ha : !fileAuthed s cid
  · rw [if_pos ha]
    exact regInv_sendTo h cid _
  · rw [if_neg ha]
    rcases hmf : alookup s.files (pyStrip rawId) with _ | meta
    · exact regInv_sendTo h cid _
    · show RegInv (if some meta.fromName ≠ (s.clients cid).name ∨
            some meta.room ≠ (s.clients cid).room then
          sendTo s cid (.error "Forbidden file_end")
        else { broadcast s meta.room
            (.fileEndN (pyStrip rawId) (nameStr (s.clients cid).name)) (some cid) with
          files := aerase (broadcast s meta.room
            (.fileEndN (pyStrip rawId) (nameStr (s.clients cid).name)) (some cid)).files
            (pyStrip rawId) })
      by_cases hm : some meta.fromName ≠ (s.clients cid).name ∨
          some meta.room ≠ (s.clients cid).room
      · rw [if_pos hm]
        exact regInv_sendTo h cid _
      · rw [if_neg hm]
        refine @regInv_transfer (broadcast s meta.room
          (.fileEndN (pyStrip rawId) (nameStr (s.clients cid).name)) (some cid)) _
          rfl rfl (fun _ => rfl) (fun _ => rfl) ?_
        exact regInv_broadcast h _ _ _

theorem regInv_step {s : ServerState} (h : RegInv s) (cid : Nat) (m : InMsg) :
    RegInv (step s cid m) := by
  cases m with
  | hello n => exact regInv_handleHello h cid n
  | join r => exact regInv_handleJoin h cid r
  | msgIn t => exact regInv_handleMsg h cid t
  | pmIn d t => exact regInv_handlePm h cid d t
  | listRooms => exact regInv_handleListRooms h cid
  | listUsers => exact regInv_handleListUsers h cid
  | fileStart f sz => exact regInv_handleFileStart h cid f sz
  | fileChunk i sq d => exact regInv_handleFileChunk h cid i sq d
  | fileEnd i => exact regInv_handleFileEnd h cid i
  | other t => exact regInv_sendTo h cid _

theorem regInv_applyAct {s : ServerState} (h : RegInv s) (a : Act) :
    RegInv (applyAct s a) := by
  cases a with
  | evt cid m => exact regInv_step h cid m
  | disc cid => exact regInv_cleanup h cid

theorem regInv_initState : RegInv initState := by
  refine ⟨?_, ?_, ?_, ?_, ?_, ?_⟩ <;> simp [initState]

theorem regInv_runActs (acts : List Act) :
    ∀ {s : ServerState}, RegInv s → RegInv (runActs s acts) := by
  induction acts with
  | nil => intro s h; exact h
  | cons a t ih =>
      intro s h
      exact ih (regInv_applyAct h a)

/-! ### Claim theorems -/

/-- C4: after every dispatcher-handled event and after every connection
cleanup (i.e. in every state reachable from the initial one by dispatcher
events and cleanups), every room present in the room map has a non-empty
member set, every connection appears in the member set of at most one room,
namely the room named in its own `room` field, and every name-table entry
maps a name to a connection whose `name` field equals that key. -/
theorem C4_registry_invariants (acts : List Act) :
    (∀ r ms, (r, ms) ∈ (runActs initState acts).rooms → ms ≠ []) ∧
    (∀ r ms i, (r, ms) ∈ (runActs initState acts).rooms → i ∈ ms →
      ((runActs initState acts).clients i).room = some r) ∧
    (∀ r ms r' ms' i, (r, ms) ∈ (runActs initState acts).rooms →
      (r', ms') ∈ (runActs initState acts).rooms → i ∈ ms → i ∈ ms' → r = r') ∧
    (∀ n i, (n, i) ∈ (runActs initState acts).byName →
      ((runActs initState acts).clients i).name = some n) := by
  have h := regInv_runActs acts regInv_initState
  refine ⟨?_, ?_, ?_, ?_⟩
  · intro r ms hm
    exact h.roomsNE (r, ms) hm
  · intro r ms i hm hi
    exact h.roomField (r, ms) hm i hi
  · intro r ms r' ms' i hm hm' hi hi'
    have h1 := h.roomField (r, ms) hm i hi
    have h2 := h.roomField (r', ms') hm' i hi'
    rw [h1] at h2
    exact Option.some_injective _ h2
  · intro n i hm
    exact h.nameField (n, i) hm

/-- C4 witness: concrete instantiation after one `hello` from connection 0
(auto-joined into `lobby`): the connection's membership in `lobby` forces
its room field, and the name table is symmetric. -/
theorem C4_registry_invariants_witness :
    ((runActs initState [.evt 0 (.hello "a")]).clients 0).room = some "lobby" ∧
    ((runActs initState [.evt 0 (.hello "a")]).clients 0).name = some "a" := by
  constructor
  · exact (C4_registry_invariants [.evt 0 (.hello "a")]).2.1 "lobby" [0] 0
      (by decide) (by decide)
  · exact (C4_registry_invariants [.evt 0 (.hello "a")]).2.2.2 "a" 0 (by decide)

/-- C7: a broadcast to a room is a per-member non-blocking enqueue: a member
whose queue is full silently keeps its queue unchanged (the event is dropped
for that recipient alone), every other non-excluded member with space gets
the event appended (`deliverQ` is exactly the bounded-append-or-drop),
non-members are untouched, and no registry changes.  The whole operation is
a total function, so no exception propagates. -/
theorem C7_broadcast_lossy (s : ServerState) (room : String) (p : OutMsg)
    (excl : Option Nat) (ms : List Nat) (j : Nat)
    (hms : alookup s.rooms room = some ms) (hnd : ms.Nodup) :
    (j ∈ ms → excl ≠ some j →
      ((broadcast s room p excl).clients j).outQ = deliverQ (s.clients j).outQ p) ∧
    (j ∉ ms → (broadcast s room p excl).clients j = s.clients j) ∧
    (broadcast s room p excl).rooms = s.rooms ∧
    (broadcast s room p excl).byName = s.byName ∧
    (broadcast s room p excl).files = s.files := by
  have hb : broadcast s room p excl = deliverAll ms p excl s := by
    rw [broadcast, hms]
    rfl
  refine ⟨?_, ?_, ?_, ?_, ?_⟩
  · intro hj hex
    rw [hb, deliverAll_clients p excl ms hnd s j, if_pos ⟨hj, hex⟩]
  · intro hj
    rw [hb, deliverAll_clients p excl ms hnd s j, if_neg (fun hc => hj hc.1)]
  · rw [hb, deliverAll_rooms]
  · rw [hb, deliverAll_byName]
  · rw [hb, deliverAll_files]

/-- C7 witness: room "r" has member 0 with a saturated queue (200 entries)
and member 1 with space; broadcasting drops the event for 0 only, and 1
still receives it. -/
theorem C7_broadcast_lossy_witness :
    ((broadcast
      { clients := fun i =>
          if i = 0 then
            { name := some "a", room := some "r",
              outQ := List.replicate 200 (.info "x") }
          else if i = 1 then { name := some "b", room := some "r", outQ := [] }
          else {},
        rooms := [("r", [0, 1])], byName := [("a", 0), ("b", 1)], files := [],
        nextFid := 0 } "r" (.info "hi") none).clients 0).outQ =
      List.replicate 200 (.info "x") ∧
    ((broadcast
      { clients := fun i =>
          if i = 0 then
            { name := some "a", room := some "r",
              outQ := List.replicate 200 (.info "x") }
          else if i = 1 then { name := some "b", room := some "r", outQ := [] }
          else {},
        rooms := [("r", [0, 1])], byName := [("a", 0), ("b", 1)], files := [],
        nextFid := 0 } "r" (.info "hi") none).clients 1).outQ = [.info "hi"] := by
  have key := C7_broadcast_lossy
    { clients := fun i =>
        if i = 0 then
          { name := some "a", room := some "r",
            outQ := List.replicate 200 (.info "x") }
        else if i = 1 then { name := some "b", room := some "r", outQ := [] }
        else {},
      rooms := [("r", [0, 1])], byName := [("a", 0), ("b", 1)], files := [],
      nextFid := 0 } "r" (.info "hi") none [0, 1]
  constructor
  · rw [(key 0 (by decide) (by decide)).1 (by decide) (by decide)]
    decide
  · rw [(key 1 (by decide) (by decide)).1 (by decide) (by decide)]
    decide

/-- C9: connection cleanup leaves the file-transfer registry untouched (so a
record created by `file_start` survives its uploader's disconnect), while it
does remove the connection from its room's member set and ensures the name
table no longer maps its name to it. -/
theorem C9_cleanup_frame (s : ServerState) (cid : Nat) (r n : String)
    (hr : (s.clients cid).room = some r) (hn : (s.clients cid).name = some n) :
    (cleanupClient s cid).files = s.files ∧
    (∀ fid meta, alookup s.files fid = some meta →
      alookup (cleanupClient s cid).files fid = some meta) ∧
    (∀ ms, alookup (cleanupClient s cid).rooms r = some ms → cid ∉ ms) ∧
    alookup (cleanupClient s cid).byName n ≠ some cid := by
  have hdesc : cleanupClient s cid =
      (if alookup s.byName n = some cid
        then { s with
                rooms := dropIfEmpty (roomDiscard s.rooms r cid) r,
                byName := aerase s.byName n }
        else { s with rooms := dropIfEmpty (roomDiscard s.rooms r cid) r }) := by
    simp only [cleanupClient, dropIfEmptyState, hr, hn]
  have hrooms : (cleanupClient s cid).rooms = dropIfEmpty (roomDiscard s.rooms r cid) r := by
    rw [hdesc]
    by_cases hc : alookup s.byName n = some cid
    · rw [if_pos hc]
    · rw [if_neg hc]
  have hfiles : (cleanupClient s cid).files = s.files := by
    rw [hdesc]
    by_cases hc : alookup s.byName n = some cid
    · rw [if_pos hc]
    · rw [if_neg hc]
  refine ⟨hfiles, ?_, ?_, ?_⟩
  · intro fid meta hm
    rw [hfiles]
    exact hm
  · intro ms hms
    rw [hrooms] at hms
    by_cases he : alookup (roomDiscard s.rooms r cid) r = some []
    · rw [dropIfEmpty, if_pos he, alookup_aerase_self] at hms
      cases hms
    · rw [dropIfEmpty, if_neg he, alookup_roomDiscard, if_pos rfl] at hms
      rcases hms0 : alookup s.rooms r with _ | ms0
      · rw [hms0] at hms
        cases hms
      · rw [hms0] at hms
        have : ms = setDiscard cid ms0 := by
          simpa using hms.symm
        rw [this]
        intro hmem
        exact (mem_setDiscard.mp hmem).2 rfl
  · rw [hdesc]
    by_cases hc : alookup s.byName n = some cid
    · rw [if_pos hc]
      show alookup (aerase s.byName n) n ≠ some cid
      rw [alookup_aerase_self]
      intro hfalse
      cases hfalse
    · rw [if_neg hc]
      exact hc

/-- C9 witness: connection 0 says hello as "a" (auto-joining lobby), starts a
file transfer (id "0"), then disconnects; its transfer record survives the
cleanup, while its name binding does not. -/
theorem C9_cleanup_frame_witness :
    alookup (cleanupClient
      (runActs initState [.evt 0 (.hello "a"), .evt 0 (.fileStart "f" 1)]) 0).files "0" =
      some { fromName := "a", room := "lobby", filename := "f", size := 1 } ∧
    alookup (cleanupClient
      (runActs initState [.evt 0 (.hello "a"), .evt 0 (.fileStart "f" 1)]) 0).byName "a" ≠
      some 0 := by
  have h := C9_cleanup_frame
    (runActs initState [.evt 0 (.hello "a"), .evt 0 (.fileStart "f" 1)]) 0 "lobby" "a"
    (by decide) (by decide)
  exact ⟨h.2.1 "0" { fromName := "a", room := "lobby", filename := "f", size := 1 }
    (by decide), h.2.2.2⟩

/-- C6: in the embedding every handler is a total function, so processing any
event terminates in a successor state and the dispatcher loop continues; an
unrecognized type produces exactly one error event to the sender and touches
nothing else; and an undecodable input line yields an error event to that
client while the lines after it are still processed normally. -/
theorem C6_dispatcher_resilient (s : ServerState) (cid : Nat)
    (ls1 ls2 : List Line) (t : String) :
    processLines s cid (ls1 ++ Line.invalid :: ls2) =
      processLines (sendTo (processLines s cid ls1) cid
        (.error "Invalid JSON or schema")) cid ls2 ∧
    ((step s cid (.other t)).clients cid).outQ =
      (s.clients cid).outQ ++ [.error ("Unknown type=" ++ t)] ∧
    (∀ j, j ≠ cid → (step s cid (.other t)).clients j = s.clients j) ∧
    (step s cid (.other t)).rooms = s.rooms ∧
    (step s cid (.other t)).byName = s.byName ∧
    (step s cid (.other t)).files = s.files := by
  refine ⟨?_, ?_, ?_, rfl, rfl, rfl⟩
  · rw [processLines, processLines, processLines, List.foldl_append, List.foldl_cons]
    rfl
  · rw [show step s cid (.other t) = sendTo s cid (.error ("Unknown type=" ++ t)) from rfl,
      sendTo_clients_self]
  · intro j hj
    exact sendTo_clients_ne s cid _ j hj

/-- C6 witness: a malformed line between two valid ones yields an error and
does not stop the processing of the later line, and an unknown-type event
from connection 0 leaves connection 1 untouched. -/
theorem C6_dispatcher_resilient_witness :
    processLines initState 0
        ([Line.valid (.hello "a")] ++ Line.invalid :: [Line.valid (.msgIn "hi")]) =
      processLines (sendTo (processLines initState 0 [Line.valid (.hello "a")]) 0
        (.error "Invalid JSON or schema")) 0 [Line.valid (.msgIn "hi")] ∧
    (step initState 0 (.other "bogus")).clients 1 = initState.clients 1 := by
  have h := C6_dispatcher_resilient initState 0
    [Line.valid (.hello "a")] [Line.valid (.msgIn "hi")] "bogus"
  exact ⟨h.1, h.2.2.1 1 (by decide)⟩

theorem deliverAll_excl_self (l : List Nat) (p : OutMsg) (cid : Nat) :
    ∀ t : ServerState, (deliverAll l p (some cid) t).clients cid = t.clients cid := by
  induction l with
  | nil => intro t; rfl
  | cons a l ih =>
      intro t
      have hfold : deliverAll (a :: l) p (some cid) t
          = deliverAll l p (some cid) (if some cid = some a then t else deliver t a p) := rfl
      rw [hfold, ih]
      by_cases ha : cid = a
      · rw [if_pos (by rw [ha])]
      · rw [if_neg (by intro hc; exact ha (Option.some_injective _ hc)),
          deliver_clients_ne t a p cid ha]

theorem broadcast_excl_self (s : ServerState) (room : String) (p : OutMsg) (cid : Nat) :
    (broadcast s room p (some cid)).clients cid = s.clients cid :=
  deliverAll_excl_self _ p cid s

/-- Helper: the exact effect of a valid `msg` from a named, roomed sender. -/
theorem handleMsg_valid (s : ServerState) (cid : Nat) (raw : String) (nm r : String)
    (hn : (s.clients cid).name = some nm) (hr : (s.clients cid).room = some r)
    (hne : rstripNl raw ≠ "") (hlen : ¬ 2000 < (rstripNl raw).length) :
    handleMsg s cid raw = broadcast s r (.msg r nm (rstripNl raw)) none := by
  rw [handleMsg, if_neg (by rw [hn]; simp), if_neg (by rw [hr]; simp),
    if_neg hne, if_neg hlen, hr, hn]
  simp [nameStr]

/-- C3: a `msg` from a nameless sender is answered "Send hello first"; from a
roomless one, "Join a room first"; text empty after trailing-newline
stripping is silently dropped (nothing changes at all); text longer than
2000 characters after stripping is rejected with an error; otherwise a `msg`
payload carrying the sender's current room, the sender's name and the
stripped text is enqueued (queue-capacity permitting) for every member of
that room and for no connection outside it, with no registry change. -/
theorem C3_msg_rules (s : ServerState) (cid : Nat) (raw : String) :
    ((s.clients cid).name = none →
      handleMsg s cid raw = sendTo s cid (.error "Send hello first")) ∧
    ((s.clients cid).name ≠ none → (s.clients cid).room = none →
      handleMsg s cid raw = sendTo s cid (.error "Join a room first")) ∧
    ((s.clients cid).name ≠ none → (s.clients cid).room ≠ none →
      rstripNl raw = "" → handleMsg s cid raw = s) ∧
    ((s.clients cid).name ≠ none → (s.clients cid).room ≠ none →
      rstripNl raw ≠ "" → 2000 < (rstripNl raw).length →
      handleMsg s cid raw = sendTo s cid (.error "Message too long")) ∧
    (∀ nm r ms, (s.clients cid).name = some nm → (s.clients cid).room = some r →
      alookup s.rooms r = some ms → ms.Nodup →
      rstripNl raw ≠ "" → ¬ 2000 < (rstripNl raw).length →
      (∀ j, j ∈ ms →
        ((handleMsg s cid raw).clients j).outQ =
          deliverQ (s.clients j).outQ (.msg r nm (rstripNl raw))) ∧
      (∀ j, j ∉ ms → (handleMsg s cid raw).clients j = s.clients j) ∧
      (handleMsg s cid raw).rooms = s.rooms ∧
      (handleMsg s cid raw).byName = s.byName ∧
      (handleMsg s cid raw).files = s.files) := by
  refine ⟨?_, ?_, ?_, ?_, ?_⟩
  · intro hn
    rw [handleMsg, if_pos hn]
  · intro hn hr
    rw [handleMsg, if_neg hn, if_pos hr]
  · intro hn hr he
    rw [handleMsg, if_neg hn, if_neg hr, if_pos he]
  · intro hn hr he hl
    rw [handleMsg, if_neg hn, if_neg hr, if_neg he, if_pos hl]
  · intro nm r ms hn hr hms hnd hne hlen
    rw [handleMsg_valid s cid raw nm r hn hr hne hlen]
    have hb : broadcast s r (.msg r nm (rstripNl raw)) none
        = deliverAll ms (.msg r nm (rstripNl raw)) none s := by
      rw [broadcast, hms]
      rfl
    refine ⟨?_, ?_, ?_, ?_, ?_⟩
    · intro j hj
      rw [hb, deliverAll_clients _ none ms hnd s j, if_pos ⟨hj, by simp⟩]
    · intro j hj
      rw [hb, deliverAll_clients _ none ms hnd s j, if_neg (fun hc => hj hc.1)]
    · rw [hb, deliverAll_rooms]
    · rw [hb, deliverAll_byName]
    · rw [hb, deliverAll_files]

/-- C3 witness: "a" (connection 0) and "b" (connection 1) share lobby; a
`msg` "hi" from 0 lands in 1's queue as a `msg` payload with room `lobby`,
sender `a` and unchanged text. -/
theorem C3_msg_rules_witness :
    ((handleMsg (runActs initState [.evt 0 (.hello "a"), .evt 1 (.hello "b")]) 0
        "hi").clients 1).outQ =
      ((runActs initState [.evt 0 (.hello "a"), .evt 1 (.hello "b")]).clients 1).outQ ++
        [.msg "lobby" "a" "hi"] := by
  have h := ((C3_msg_rules (runActs initState [.evt 0 (.hello "a"), .evt 1 (.hello "b")])
    0 "hi").2.2.2.2 "a" "lobby" [0, 1] (by decide) (by decide) (by decide) (by decide)
    (by decide) (by decide)).1 1 (by decide)
  rw [h]
  decide

/-- C10: the room broadcast for a valid `msg` excludes no one, so the sending
connection's own queue receives the very payload the other members receive;
by contrast a broadcast that names the sender as its exclusion (as the
join/file notices do) never enqueues anything for the sender. -/
theorem C10_sender_included (s : ServerState) (cid : Nat) (raw : String)
    (nm r : String) (ms : List Nat)
    (hn : (s.clients cid).name = some nm) (hr : (s.clients cid).room = some r)
    (hms : alookup s.rooms r = some ms) (hnd : ms.Nodup) (hmem : cid ∈ ms)
    (hne : rstripNl raw ≠ "") (hlen : ¬ 2000 < (rstripNl raw).length) :
    ((handleMsg s cid raw).clients cid).outQ =
      deliverQ (s.clients cid).outQ (.msg r nm (rstripNl raw)) ∧
    (∀ p : OutMsg, ∀ room' : String,
      (broadcast s room' p (some cid)).clients cid = s.clients cid) := by
  constructor
  · rw [handleMsg_valid s cid raw nm r hn hr hne hlen]
    have hb : broadcast s r (.msg r nm (rstripNl raw)) none
        = deliverAll ms (.msg r nm (rstripNl raw)) none s := by
      rw [broadcast, hms]
      rfl
    rw [hb, deliverAll_clients _ none ms hnd s cid, if_pos ⟨hmem, by simp⟩]
  · intro p room'
    exact broadcast_excl_self s room' p cid

/-- C10 witness: with "a" and "b" in lobby, the `msg` "hi" from connection 0
is delivered to connection 0's own queue as well. -/
theorem C10_sender_included_witness :
    ((handleMsg (runActs initState [.evt 0 (.hello "a"), .evt 1 (.hello "b")]) 0
        "hi").clients 0).outQ =
      ((runActs initState [.evt 0 (.hello "a"), .evt 1 (.hello "b")]).clients 0).outQ ++
        [.msg "lobby" "a" "hi"] := by
  have h := (C10_sender_included (runActs initState [.evt 0 (.hello "a"), .evt 1 (.hello "b")])
    0 "hi" "a" "lobby" [0, 1] (by decide) (by decide) (by decide) (by decide) (by decide)
    (by decide) (by decide)).1
  rw [h]
  decide

/-- C8 counterexample: connections 0 ("a") and 1 ("b"); a `pm` from 0
addressed to the held name "b" with empty text is NOT delivered to 1 — the
code answers a format error instead — refuting the claim that every pm
addressed to a held name is enqueued for that connection. -/
theorem C8_pm_counterexample :
    alookup (runActs initState [.evt 0 (.hello "a"), .evt 1 (.hello "b")]).byName "b" =
      some 1 ∧
    (handlePm (runActs initState [.evt 0 (.hello "a"), .evt 1 (.hello "b")]) 0 "b"
        "").clients 1 =
      (runActs initState [.evt 0 (.hello "a"), .evt 1 (.hello "b")]).clients 1 ∧
    ((handlePm (runActs initState [.evt 0 (.hello "a"), .evt 1 (.hello "b")]) 0 "b"
        "").clients 0).outQ =
      ((runActs initState [.evt 0 (.hello "a"), .evt 1 (.hello "b")]).clients 0).outQ ++
        [.error "PM format: to + text"] := by
  decide

/-- Helper: the exact effect of a well-formed `pm` that finds its addressee. -/
theorem handlePm_found (s : ServerState) (cid : Nat) (rawTo rawText : String)
    (nm : String) (dst : Nat) (hn : (s.clients cid).name = some nm)
    (h1 : pyStrip rawTo ≠ "") (h2 : rstripNl rawText ≠ "")
    (hd : alookup s.byName (pyStrip rawTo) = some dst) :
    handlePm s cid rawTo rawText =
      sendTo (sendTo s dst (.pm nm (rstripNl rawText))) cid
        (.info ("PM sent -> " ++ pyStrip rawTo)) := by
  rw [handlePm, if_neg (by rw [hn]; simp), if_neg (by simp [h1, h2]), hd, hn]
  simp [nameStr]

/-- C8 (amended): a `pm` whose stripped `to` or newline-stripped text is
empty draws a format error and delivers nothing; with both non-empty, an
unheld name draws a user-not-found error and delivers nothing; and when a
connection other than the sender holds the name, the pm payload (from = the
sender's name, text = the newline-stripped text) is enqueued for that
connection only — no other client and no registry is touched, so it is never
broadcast to a room — while the sender gets a confirmation. -/
theorem C8_pm_amended (s : ServerState) (cid : Nat) (rawTo rawText : String)
    (nm : String) (hn : (s.clients cid).name = some nm) :
    (pyStrip rawTo = "" ∨ rstripNl rawText = "" →
      handlePm s cid rawTo rawText = sendTo s cid (.error "PM format: to + text")) ∧
    (pyStrip rawTo ≠ "" → rstripNl rawText ≠ "" →
      alookup s.byName (pyStrip rawTo) = none →
      handlePm s cid rawTo rawText =
        sendTo s cid (.error ("User " ++ pyStrip rawTo ++ " not found"))) ∧
    (∀ dst, pyStrip rawTo ≠ "" → rstripNl rawText ≠ "" →
      alookup s.byName (pyStrip rawTo) = some dst → dst ≠ cid →
      ((handlePm s cid rawTo rawText).clients dst).outQ =
        (s.clients dst).outQ ++ [.pm nm (rstripNl rawText)] ∧
      ((handlePm s cid rawTo rawText).clients cid).outQ =
        (s.clients cid).outQ ++ [.info ("PM sent -> " ++ pyStrip rawTo)] ∧
      (∀ j, j ≠ dst → j ≠ cid →
        (handlePm s cid rawTo rawText).clients j = s.clients j) ∧
      (handlePm s cid rawTo rawText).rooms = s.rooms ∧
      (handlePm s cid rawTo rawText).byName = s.byName ∧
      (handlePm s cid rawTo rawText).files = s.files) := by
  refine ⟨?_, ?_, ?_⟩
  · intro hfmt
    rw [handlePm, if_neg (by rw [hn]; simp), if_pos hfmt]
  · intro h1 h2 hd
    rw [handlePm, if_neg (by rw [hn]; simp), if_neg (by simp [h1, h2]), hd]
  · intro dst h1 h2 hd hdc
    have hform := handlePm_found s cid rawTo rawText nm dst hn h1 h2 hd
    refine ⟨?_, ?_, ?_, ?_, ?_, ?_⟩
    · rw [hform, sendTo_clients_ne _ cid _ dst hdc, sendTo_clients_self]
    · rw [hform, sendTo_clients_self,
        sendTo_clients_ne s dst _ cid (fun hc => hdc hc.symm)]
    · intro j hjd hjc
      rw [hform, sendTo_clients_ne _ cid _ j hjc, sendTo_clients_ne s dst _ j hjd]
    · rw [hform, sendTo_rooms, sendTo_rooms]
    · rw [hform, sendTo_byName, sendTo_byName]
    · rw [hform, sendTo_files, sendTo_files]

/-- C8 witness: a well-formed `pm` "hi" from "a" (0) to "b" (1) lands in 1's
queue only, with the sender confirmed. -/
theorem C8_pm_amended_witness :
    ((handlePm (runActs initState [.evt 0 (.hello "a"), .evt 1 (.hello "b")]) 0 "b"
        "hi").clients 1).outQ =
      ((runActs initState [.evt 0 (.hello "a"), .evt 1 (.hello "b")]).clients 1).outQ ++
        [.pm "a" "hi"] ∧
    (handlePm (runActs initState [.evt 0 (.hello "a"), .evt 1 (.hello "b")]) 0 "b"
        "hi").byName =
      (runActs initState [.evt 0 (.hello "a"), .evt 1 (.hello "b")]).byName := by
  have h := (C8_pm_amended (runActs initState [.evt 0 (.hello "a"), .evt 1 (.hello "b")])
    0 "b" "hi" "a" (by decide)).2.2 1 (by decide) (by decide) (by decide) (by decide)
  exact ⟨h.1, h.2.2.2.2.1⟩

/-- C2 counterexample: the requested name " a" contains whitespace after str
conversion, yet the hello succeeds — the handler strips the name before
validating, binds "a" and auto-joins lobby, sending no error — refuting the
claim that a whitespace-containing request is rejected with no state change. -/
theorem C2_hello_counterexample :
    (" a").data.any Char.isWhitespace = true ∧
    alookup (handleHello initState 0 " a").byName "a" = some 0 ∧
    ((handleHello initState 0 " a").clients 0).name = some "a" ∧
    ((handleHello initState 0 " a").clients 0).outQ.all
      (fun m => match m with | .error _ => false | _ => true) = true := by
  decide

theorem joinRoom_byName2 (s : ServerState) (cid : Nat) (room : String) :
    (joinRoom s cid room).byName = s.byName := by
  rcases ho : (s.clients cid).room with _ | o
  · exact (joinRoom_fresh s cid room ho).2.1
  · by_cases he : o = room
    · subst he
      rw [joinRoom_stay s cid o ho, sendTo_byName]
    · exact (joinRoom_move s cid room o ho he).2.1

theorem joinRoom_name2 (s : ServerState) (cid : Nat) (room : String) (j : Nat) :
    ((joinRoom s cid room).clients j).name = (s.clients j).name := by
  rcases ho : (s.clients cid).room with _ | o
  · exact (joinRoom_fresh s cid room ho).2.2.2.2.1 j
  · by_cases he : o = room
    · subst he
      rw [joinRoom_stay s cid o ho, sendTo_name]
    · exact (joinRoom_move s cid room o ho he).2.2.2.2.1 j

theorem helloRelease_clients (s : ServerState) (cid : Nat) :
    (helloRelease s cid).clients = s.clients := by
  rw [helloRelease]
  rcases (s.clients cid).name with _ | o
  · rfl
  · show (if alookup s.byName o = some cid
        then { s with byName := aerase s.byName o } else s).clients = s.clients
    by_cases hl : alookup s.byName o = some cid
    · rw [if_pos hl]
    · rw [if_neg hl]

theorem helloRelease_rooms (s : ServerState) (cid : Nat) :
    (helloRelease s cid).rooms = s.rooms := by
  rw [helloRelease]
  rcases (s.clients cid).name with _ | o
  · rfl
  · show (if alookup s.byName o = some cid
        then { s with byName := aerase s.byName o } else s).rooms = s.rooms
    by_cases hl : alookup s.byName o = some cid
    · rw [if_pos hl]
    · rw [if_neg hl]

theorem helloRelease_released (s : ServerState) (cid : Nat) (old : String)
    (hon : (s.clients cid).name = some old) (hl : alookup s.byName old = some cid) :
    alookup (helloRelease s cid).byName old = none := by
  simp only [helloRelease, hon, if_pos hl]
  exact alookup_aerase_self s.byName old

/-- Helper: observable effect of the post-validation tail of `hello`. -/
theorem helloBind_desc (s1 : ServerState) (cid : Nat) (name : String) :
    alookup (helloBind s1 cid name).byName name = some cid ∧
    (∀ k, k ≠ name → alookup (helloBind s1 cid name).byName k = alookup s1.byName k) ∧
    ((helloBind s1 cid name).clients cid).name = some name ∧
    ((s1.clients cid).room = none →
      ((helloBind s1 cid name).clients cid).room = some defaultRoom ∧
      cid ∈ (alookup (helloBind s1 cid name).rooms defaultRoom).getD []) ∧
    (∀ r, (s1.clients cid).room = some r →
      ((helloBind s1 cid name).clients cid).room = some r) := by
  have hs4room : ∀ j, ((sendTo { updateClient s1 cid
      (fun c => { c with name := some name }) with
      byName := ainsert (updateClient s1 cid
        (fun c => { c with name := some name })).byName name cid } cid
      (.info ("You are logged in as " ++ name ++
        ". Use join to pick a room."))).clients j).room = (s1.clients j).room := by
    intro j
    rw [sendTo_room]
    by_cases hj : j = cid <;> simp [updateClient, hj]
  have hs4name : ((sendTo { updateClient s1 cid
      (fun c => { c with name := some name }) with
      byName := ainsert (updateClient s1 cid
        (fun c => { c with name := some name })).byName name cid } cid
      (.info ("You are logged in as " ++ name ++
        ". Use join to pick a room."))).clients cid).name = some name := by
    rw [sendTo_name]
    simp [updateClient]
  have hs4byName : (sendTo { updateClient s1 cid
      (fun c => { c with name := some name }) with
      byName := ainsert (updateClient s1 cid
        (fun c => { c with name := some name })).byName name cid } cid
      (.info ("You are logged in as " ++ name ++
        ". Use join to pick a room."))).byName = ainsert s1.byName name cid := by
    rw [sendTo_byName]
    simp [updateClient]
  have hs4rooms : (sendTo { updateClient s1 cid
      (fun c => { c with name := some name }) with
      byName := ainsert (updateClient s1 cid
        (fun c => { c with name := some name })).byName name cid } cid
      (.info ("You are logged in as " ++ name ++
        ". Use join to pick a room."))).rooms = s1.rooms := by
    rw [sendTo_rooms]
    simp [updateClient]
  rw [helloBind]
  by_cases hro : (s1.clients cid).room = none
  · rw [if_pos (by rw [hs4room cid]; exact hro)]
    refine ⟨?_, ?_, ?_, ?_, ?_⟩
    · rw [joinRoom_byName2, hs4byName, alookup_ainsert_self]
    · intro k hk
      rw [joinRoom_byName2, hs4byName, alookup_ainsert_ne _ name k _ hk]
    · rw [joinRoom_name2, hs4name]
    · intro _
      constructor
      · rw [(joinRoom_fresh _ cid defaultRoom (by rw [hs4room cid]; exact hro)).2.2.2.2.2 cid,
          if_pos rfl]
      · rw [(joinRoom_fresh _ cid defaultRoom (by rw [hs4room cid]; exact hro)).1,
          hs4rooms, alookup_roomAdd_self]
        rcases alookup s1.rooms defaultRoom with _ | ms
        · simp
        · simp [mem_setAdd]
    · intro r hr
      rw [hro] at hr
      cases hr
  · rw [if_neg (by rw [hs4room cid]; exact hro)]
    refine ⟨?_, ?_, ?_, ?_, ?_⟩
    · rw [hs4byName, alookup_ainsert_self]
    · intro k hk
      rw [hs4byName, alookup_ainsert_ne _ name k _ hk]
    · exact hs4name
    · intro hc
      exact absurd hc hro
    · intro r hr
      rw [hs4room cid]
      exact hr

/-- C2 (amended): `hello` validates the name after str conversion AND
whitespace stripping: if the stripped name is empty, longer than 32 chars or
still contains (inner) whitespace the sender gets an error and nothing else
changes; if another connection holds the stripped name, a name-taken error;
otherwise any previously held old name pointing at this connection is
released, the stripped name is bound to it, a connection without a room is
implicitly joined to the default room while an existing room is kept, and
re-sending the name already held succeeds (it is not "taken" by self). -/
theorem C2_hello_amended (s : ServerState) (cid : Nat) (rawName : String) :
    (badName (pyStrip rawName) →
      handleHello s cid rawName =
        sendTo s cid (.error "Invalid name (max 32 chars, no spaces)")) ∧
    (¬ badName (pyStrip rawName) → nameTaken s (pyStrip rawName) cid →
      handleHello s cid rawName = sendTo s cid (.error "Name already taken")) ∧
    (¬ badName (pyStrip rawName) → ¬ nameTaken s (pyStrip rawName) cid →
      alookup (handleHello s cid rawName).byName (pyStrip rawName) = some cid ∧
      ((handleHello s cid rawName).clients cid).name = some (pyStrip rawName) ∧
      (∀ old, (s.clients cid).name = some old → old ≠ pyStrip rawName →
        alookup s.byName old = some cid →
        alookup (handleHello s cid rawName).byName old = none) ∧
      ((s.clients cid).room = none →
        ((handleHello s cid rawName).clients cid).room = some defaultRoom ∧
        cid ∈ (alookup (handleHello s cid rawName).rooms defaultRoom).getD []) ∧
      (∀ r, (s.clients cid).room = some r →
        ((handleHello s cid rawName).clients cid).room = some r)) := by
  refine ⟨?_, ?_, ?_⟩
  · intro hb
    rw [handleHello, if_pos hb]
  · intro hb ht
    rw [handleHello, if_neg hb, if_pos ht]
  · intro hb ht
    have hred : handleHello s cid rawName =
        helloBind (helloRelease s cid) cid (pyStrip rawName) := by
      rw [handleHello, if_neg hb, if_neg ht]
    obtain ⟨d1, d2, d3, d4, d5⟩ := helloBind_desc (helloRelease s cid) cid (pyStrip rawName)
    refine ⟨?_, ?_, ?_, ?_, ?_⟩
    · rw [hred]
      exact d1
    · rw [hred]
      exact d3
    · intro old hon hne hl
      rw [hred, d2 old hne]
      exact helloRelease_released s cid old hon hl
    · intro hro
      rw [hred]
      exact d4 (by rw [helloRelease_clients]; exact hro)
    · intro r hr
      rw [hred]
      exact d5 r (by rw [helloRelease_clients]; exact hr)

/-- C2 witness: after connection 0 holds "a" (and lobby), re-sending hello
"a" succeeds: the binding survives and the room is kept. -/
theorem C2_hello_amended_witness :
    alookup (handleHello (runActs initState [.evt 0 (.hello "a")]) 0 "a").byName "a" =
      some 0 ∧
    ((handleHello (runActs initState [.evt 0 (.hello "a")]) 0 "a").clients 0).room =
      some "lobby" := by
  have h := (C2_hello_amended (runActs initState [.evt 0 (.hello "a")]) 0 "a").2.2
    (by decide) (by decide)
  exact ⟨h.1, h.2.2.2.2 "lobby" (by decide)⟩

/-- Helper: full queue-level description of a `join` that actually moves the
connection from old room `o` to a different `room`. -/
theorem joinRoom_move_queues (s : ServerState) (cid : Nat) (room o : String)
    (oms : List Nat) (ho : (s.clients cid).room = some o) (hne : o ≠ room)
    (holdms : alookup s.rooms o = some oms) (hndo : oms.Nodup)
    (hndr : ((alookup s.rooms room).getD []).Nodup) :
    ((joinRoom s cid room).clients cid).outQ =
      (s.clients cid).outQ ++ [.info ("You joined room " ++ room)] ∧
    (∀ j, j ≠ cid →
      ((joinRoom s cid room).clients j).outQ =
        (let q1 := if j ∈ setDiscard cid oms
            then deliverQ (s.clients j).outQ
              (.info (nameStr (s.clients cid).name ++ " left room " ++ o))
            else (s.clients j).outQ
         if j ∈ (alookup s.rooms room).getD []
            then deliverQ q1 (.info (nameStr (s.clients cid).name ++ " joined room " ++ room))
            else q1)) := by
  have hnee : ¬ ((s.clients cid).room = some room) := by rw [ho]; simp [hne]
  have hform : joinRoom s cid room = broadcast
      (sendTo
        { updateClient
            (dropIfEmptyState
              (broadcast { s with rooms := roomDiscard s.rooms o cid } o
                (.info (nameStr (s.clients cid).name ++ " left room " ++ o)) (some cid)) o)
            cid (fun c => { c with room := some room }) with
          rooms := roomAdd
            (updateClient
              (dropIfEmptyState
                (broadcast { s with rooms := roomDiscard s.rooms o cid } o
                  (.info (nameStr (s.clients cid).name ++ " left room " ++ o)) (some cid)) o)
              cid (fun c => { c with room := some room })).rooms room cid }
        cid (.info ("You joined room " ++ room)))
      room (.info (nameStr (s.clients cid).name ++ " joined room " ++ room)) (some cid) := by
    simp only [joinRoom, ho]
    rw [if_neg (show ¬ ((some o : Option String) = some room) from by simp [hne])]
  -- the inner (left-notice) broadcast as a deliverAll over the remaining members
  have hinnerLook : alookup ({ s with
      rooms := roomDiscard s.rooms o cid } : ServerState).rooms o = some (setDiscard cid oms) := by
    show alookup (roomDiscard s.rooms o cid) o = some (setDiscard cid oms)
    rw [alookup_roomDiscard, if_pos rfl, holdms]
    rfl
  have hinner : broadcast { s with rooms := roomDiscard s.rooms o cid } o
      (.info (nameStr (s.clients cid).name ++ " left room " ++ o)) (some cid) =
      deliverAll (setDiscard cid oms)
        (.info (nameStr (s.clients cid).name ++ " left room " ++ o)) (some cid)
        { s with rooms := roomDiscard s.rooms o cid } := by
    rw [broadcast, hinnerLook]
    rfl
  -- queues of the state reached just before the joined-notice broadcast
  have hs4clients : ∀ j, ((sendTo
      { updateClient
          (dropIfEmptyState
            (broadcast { s with rooms := roomDiscard s.rooms o cid } o
              (.info (nameStr (s.clients cid).name ++ " left room " ++ o)) (some cid)) o)
          cid (fun c => { c with room := some room }) with
        rooms := roomAdd
          (updateClient
            (dropIfEmptyState
              (broadcast { s with rooms := roomDiscard s.rooms o cid } o
                (.info (nameStr (s.clients cid).name ++ " left room " ++ o)) (some cid)) o)
            cid (fun c => { c with room := some room })).rooms room cid }
      cid (.info ("You joined room " ++ room))).clients j).outQ =
      (if j = cid then (s.clients cid).outQ ++ [.info ("You joined room " ++ room)]
       else if j ∈ setDiscard cid oms
          then deliverQ (s.clients j).outQ
            (.info (nameStr (s.clients cid).name ++ " left room " ++ o))
          else (s.clients j).outQ) := by
    intro j
    by_cases hj : j = cid
    · subst hj
      rw [sendTo_clients_self]
      have hunch : ((deliverAll (setDiscard j oms)
          (.info (nameStr (s.clients j).name ++ " left room " ++ o)) (some j)
          { s with rooms := roomDiscard s.rooms o j }).clients j).outQ =
          (s.clients j).outQ := by
        rw [deliverAll_clients _ _ _ (setDiscard_nodup hndo) _ j,
          if_neg (fun hc => (mem_setDiscard.mp hc.1).2 rfl)]
      simp [updateClient, dropIfEmptyState, hinner, hunch]
    · rw [sendTo_clients_ne _ cid _ j hj]
      simp only [updateClient, dropIfEmptyState, hinner]
      simp only [if_neg hj]
      rw [deliverAll_clients _ _ _ (setDiscard_nodup hndo) _ j]
      by_cases hjm : j ∈ setDiscard cid oms
      · rw [if_pos ⟨hjm, fun hc => hj (Option.some_injective _ hc).symm⟩, if_pos hjm]
      · rw [if_neg (fun hc => hjm hc.1), if_neg hjm]
  -- lookup of the new room in the state before the joined-notice broadcast
  have houterLook : alookup (sendTo
      { updateClient
          (dropIfEmptyState
            (broadcast { s with rooms := roomDiscard s.rooms o cid } o
              (.info (nameStr (s.clients cid).name ++ " left room " ++ o)) (some cid)) o)
          cid (fun c => { c with room := some room }) with
        rooms := roomAdd
          (updateClient
            (dropIfEmptyState
              (broadcast { s with rooms := roomDiscard s.rooms o cid } o
                (.info (nameStr (s.clients cid).name ++ " left room " ++ o)) (some cid)) o)
            cid (fun c => { c with room := some room })).rooms room cid }
      cid (.info ("You joined room " ++ room))).rooms room =
      some (match alookup s.rooms room with
            | some rms => setAdd cid rms
            | none => [cid]) := by
    rw [sendTo_rooms]
    show alookup (roomAdd (updateClient
        (dropIfEmptyState
          (broadcast { s with rooms := roomDiscard s.rooms o cid } o
            (.info (nameStr (s.clients cid).name ++ " left room " ++ o)) (some cid)) o)
        cid (fun c => { c with room := some room })).rooms room cid) room = _
    rw [alookup_roomAdd_self]
    have : (updateClient
        (dropIfEmptyState
          (broadcast { s with rooms := roomDiscard s.rooms o cid } o
            (.info (nameStr (s.clients cid).name ++ " left room " ++ o)) (some cid)) o)
        cid (fun c => { c with room := some room })).rooms =
        dropIfEmpty (roomDiscard s.rooms o cid) o := by
      rw [updateClient_rooms]
      show dropIfEmpty (broadcast { s with rooms := roomDiscard s.rooms o cid } o
          (.info (nameStr (s.clients cid).name ++ " left room " ++ o)) (some cid)).rooms o = _
      rw [broadcast_rooms]
    rw [this, alookup_dropIfEmpty_ne _ _ _ (fun he => hne he.symm),
      alookup_roomDiscard, if_neg (fun he => hne he.symm)]
  refine ⟨?_, ?_⟩
  · rw [hform, broadcast, houterLook]
    simp only [Option.getD_some]
    rw [show ∀ l p t, (List.foldl (fun st i => if some cid = some i then st
        else deliver st i p) t l) = deliverAll l p (some cid) t from fun l p t => rfl]
    rw [deliverAll_excl_self, hs4clients cid, if_pos rfl]
  · intro j hj
    rw [hform, broadcast, houterLook]
    simp only [Option.getD_some]
    rw [show ∀ l p t, (List.foldl (fun st i => if some cid = some i then st
        else deliver st i p) t l) = deliverAll l p (some cid) t from fun l p t => rfl]
    have hnd2 : (match alookup s.rooms room with
        | some rms => setAdd cid rms
        | none => [cid] : List Nat).Nodup := by
      rcases hms : alookup s.rooms room with _ | rms
      · simp
      · rw [hms] at hndr
        exact setAdd_nodup (by simpa using hndr)
    rw [deliverAll_clients _ _ _ hnd2 _ j]
    have hmem2 : (j ∈ (match alookup s.rooms room with
        | some rms => setAdd cid rms
        | none => [cid] : List Nat)) = (j ∈ (alookup s.rooms room).getD []) := by
      rcases hms : alookup s.rooms room with _ | rms
      · simp [hj]
      · simp only [Option.getD]
        rw [show (j ∈ setAdd cid rms) = (j ∈ rms ∨ j = cid) from by
          simp [mem_setAdd]]
        simp [hj]
    by_cases hjm : j ∈ (alookup s.rooms room).getD []
    · rw [if_pos ⟨by rw [hmem2]; exact hjm,
        fun hc => hj (Option.some_injective _ hc).symm⟩]
      simp only [hs4clients j, if_neg hj, if_pos hjm]
    · rw [if_neg (fun hc => hjm (by rw [← hmem2]; exact hc.1))]
      simp only [hs4clients j, if_neg hj, if_neg hjm]

/-- C5: for a named connection with a valid room argument, a join naming the
current room only enqueues one informational acknowledgment to that
connection (equality with `sendTo` means nobody else is touched and no
notice is sent); a join naming a different room removes the connection from
its old room (the room is deleted exactly when it became empty), sends the
remaining old-room members a departure notice, adds the connection to the
new room (creating it if absent), sends the new room's other members an
arrival notice, sets the connection's room field, and acknowledges it
directly. -/
theorem C5_join_semantics (s : ServerState) (cid : Nat) (rawRoom : String) (nm : String)
    (hn : (s.clients cid).name = some nm)
    (hv1 : pyStrip rawRoom ≠ "") (hv2 : ¬ 40 < (pyStrip rawRoom).length) :
    ((s.clients cid).room = some (pyStrip rawRoom) →
      handleJoin s cid rawRoom =
        sendTo s cid (.info ("You are already in room " ++ pyStrip rawRoom))) ∧
    (∀ o oms, (s.clients cid).room = some o → o ≠ pyStrip rawRoom →
      alookup s.rooms o = some oms → oms.Nodup →
      ((alookup s.rooms (pyStrip rawRoom)).getD []).Nodup →
      (setDiscard cid oms = [] → alookup (handleJoin s cid rawRoom).rooms o = none) ∧
      (setDiscard cid oms ≠ [] →
        alookup (handleJoin s cid rawRoom).rooms o = some (setDiscard cid oms)) ∧
      alookup (handleJoin s cid rawRoom).rooms (pyStrip rawRoom) =
        some (match alookup s.rooms (pyStrip rawRoom) with
              | some rms => setAdd cid rms
              | none => [cid]) ∧
      ((handleJoin s cid rawRoom).clients cid).room = some (pyStrip rawRoom) ∧
      ((handleJoin s cid rawRoom).clients cid).outQ =
        (s.clients cid).outQ ++ [.info ("You joined room " ++ pyStrip rawRoom)] ∧
      (∀ j, j ∈ oms → j ≠ cid → j ∉ (alookup s.rooms (pyStrip rawRoom)).getD [] →
        ((handleJoin s cid rawRoom).clients j).outQ =
          deliverQ (s.clients j).outQ (.info (nm ++ " left room " ++ o))) ∧
      (∀ j, j ∈ (alookup s.rooms (pyStrip rawRoom)).getD [] → j ∉ oms → j ≠ cid →
        ((handleJoin s cid rawRoom).clients j).outQ =
          deliverQ (s.clients j).outQ
            (.info (nm ++ " joined room " ++ pyStrip rawRoom)))) := by
  have hred : handleJoin s cid rawRoom = joinRoom s cid (pyStrip rawRoom) := by
    rw [handleJoin, if_neg (by rw [hn]; simp), if_neg (by simp [hv1, hv2])]
  constructor
  · intro hstay
    rw [hred, joinRoom_stay s cid (pyStrip rawRoom) hstay]
  · intro o oms ho hne holdms hndo hndr
    have hnm : nameStr (s.clients cid).name = nm := by rw [hn]; rfl
    obtain ⟨h1, _, _, _, _, h6⟩ :=
      joinRoom_move s cid (pyStrip rawRoom) o ho (fun he => hne he)
    obtain ⟨hq1, hq2⟩ := joinRoom_move_queues s cid (pyStrip rawRoom) o oms ho
      (fun he => hne he) holdms hndo hndr
    have hRS1 : alookup (roomDiscard s.rooms o cid) o = some (setDiscard cid oms) := by
      rw [alookup_roomDiscard, if_pos rfl, holdms]
      rfl
    refine ⟨?_, ?_, ?_, ?_, ?_, ?_, ?_⟩
    · intro hempty
      rw [hred, h1, alookup_roomAdd_ne _ _ _ o hne]
      rw [dropIfEmpty, if_pos (by rw [hRS1, hempty]), alookup_aerase_self]
    · intro hnonempty
      rw [hred, h1, alookup_roomAdd_ne _ _ _ o hne]
      rw [dropIfEmpty, if_neg (by rw [hRS1]; simp [hnonempty]), hRS1]
    · rw [hred, h1, alookup_roomAdd_self]
      rw [alookup_dropIfEmpty_ne _ _ _ (fun he => hne he.symm),
        alookup_roomDiscard, if_neg (fun he => hne he.symm)]
    · rw [hred, h6 cid, if_pos rfl]
    · rw [hred, hq1]
    · intro j hjo hjc hjn
      rw [hred, hq2 j hjc]
      simp only [hnm]
      rw [if_neg hjn, if_pos (mem_setDiscard.mpr ⟨hjo, hjc⟩)]
    · intro j hjn hjo hjc
      rw [hred, hq2 j hjc]
      simp only [hnm]
      rw [if_pos hjn, if_neg (fun hc => hjo (mem_setDiscard.mp hc).1)]

/-- C5 witness: "a", "b" share lobby, "c" sits alone in room "x"; when "a"
(connection 0) joins "x": lobby keeps [1], "x" becomes [2, 0], 0 is acked
and re-roomed, 1 gets the departure notice, 2 gets the arrival notice. -/
theorem C5_join_semantics_witness :
    alookup (handleJoin (runActs initState [.evt 0 (.hello "a"), .evt 1 (.hello "b"),
        .evt 2 (.hello "c"), .evt 2 (.join "x")]) 0 "x").rooms "lobby" = some [1] ∧
    alookup (handleJoin (runActs initState [.evt 0 (.hello "a"), .evt 1 (.hello "b"),
        .evt 2 (.hello "c"), .evt 2 (.join "x")]) 0 "x").rooms "x" = some [2, 0] ∧
    ((handleJoin (runActs initState [.evt 0 (.hello "a"), .evt 1 (.hello "b"),
        .evt 2 (.hello "c"), .evt 2 (.join "x")]) 0 "x").clients 1).outQ =
      ((runActs initState [.evt 0 (.hello "a"), .evt 1 (.hello "b"),
        .evt 2 (.hello "c"), .evt 2 (.join "x")]).clients 1).outQ ++
        [.info "a left room lobby"] ∧
    ((handleJoin (runActs initState [.evt 0 (.hello "a"), .evt 1 (.hello "b"),
        .evt 2 (.hello "c"), .evt 2 (.join "x")]) 0 "x").clients 2).outQ =
      ((runActs initState [.evt 0 (.hello "a"), .evt 1 (.hello "b"),
        .evt 2 (.hello "c"), .evt 2 (.join "x")]).clients 2).outQ ++
        [.info "a joined room x"] := by
  have h := (C5_join_semantics (runActs initState [.evt 0 (.hello "a"),
      .evt 1 (.hello "b"), .evt 2 (.hello "c"), .evt 2 (.join "x")]) 0 "x" "a"
      (by decide) (by decide) (by decide)).2 "lobby" [0, 1]
      (by decide) (by decide) (by decide) (by decide) (by decide)
  rw [show pyStrip "x" = "x" from by decide] at h
  refine ⟨?_, ?_, ?_, ?_⟩
  · have h2 := h.2.1 (by decide)
    rw [h2]
    decide
  · have h3 := h.2.2.1
    rw [h3]
    decide
  · have h6 := h.2.2.2.2.2.1 1 (by decide) (by decide) (by decide)
    rw [h6]
    decide
  · have h7 := h.2.2.2.2.2.2 2 (by decide) (by decide) (by decide)
    rw [h7]
    decide

/-- C1 counterexample: connection 0 (named "x", in lobby) starts transfer
"0" and disconnects; the orphaned record survives; connection 1 then takes
the name "x" and joins lobby, and its `file_chunk` for id "0" — a chunk
from a DIFFERENT connection than the one that created the record — is
relayed to the room (observer 2 receives it, with the claimed seq/data)
while the sender receives no error, refuting the claim that such a chunk is
rejected and not relayed. -/
theorem C1_file_counterexample :
    alookup (runActs initState [.evt 0 (.hello "x"), .evt 2 (.hello "c"),
      .evt 0 (.fileStart "f.txt" 10)]).files "0" =
      some { fromName := "x", room := "lobby", filename := "f.txt", size := 10 } ∧
    (OutMsg.fileChunkN "0" 7 "QQ==" "x") ∈
      ((runActs initState [.evt 0 (.hello "x"), .evt 2 (.hello "c"),
        .evt 0 (.fileStart "f.txt" 10), .disc 0, .evt 1 (.hello "x"),
        .evt 1 (.fileChunk "0" 7 "QQ==")]).clients 2).outQ ∧
    ((runActs initState [.evt 0 (.hello "x"), .evt 2 (.hello "c"),
        .evt 0 (.fileStart "f.txt" 10), .disc 0, .evt 1 (.hello "x"),
        .evt 1 (.fileChunk "0" 7 "QQ==")]).clients 1).outQ.all
      (fun m => match m with | .error _ => false | _ => true) = true := by
  refine ⟨by decide, by decide, by decide⟩

/-- C1 (amended): the registry check is by CURRENT NAME and CURRENT ROOM
equality with the stored record, not by connection identity: a
`file_chunk`/`file_end` whose id is absent draws an unknown-id error and
relays nothing; one whose sender's current name or room differs from the
record's stored values draws a forbidden error and relays nothing (equality
with `sendTo` means no other client and no registry is touched); a chunk
from a sender whose name and room match the record — passing the size and
base64 gates — is relayed to every other room member with seq and data
unchanged, leaving the registry intact, and a matching `file_end` relays the
end notice and deletes the record, so the id is absent afterwards. -/
theorem C1_file_relay (s : ServerState) (cid : Nat) (rawId : String) (seq : Int)
    (data : String) (nm r : String)
    (hn : (s.clients cid).name = some nm) (hr : (s.clients cid).room = some r) :
    (alookup s.files (pyStrip rawId) = none →
      handleFileChunk s cid rawId seq data = sendTo s cid (.error "Unknown file id") ∧
      handleFileEnd s cid rawId = sendTo s cid (.error "Unknown file id")) ∧
    (∀ meta, alookup s.files (pyStrip rawId) = some meta →
      meta.fromName ≠ nm ∨ meta.room ≠ r →
      handleFileChunk s cid rawId seq data =
        sendTo s cid (.error "Forbidden file_chunk") ∧
      handleFileEnd s cid rawId = sendTo s cid (.error "Forbidden file_end")) ∧
    (∀ meta ms, alookup s.files (pyStrip rawId) = some meta →
      meta.fromName = nm → meta.room = r →
      ¬ 200000 < data.length → b64Valid data = true →
      alookup s.rooms meta.room = some ms → ms.Nodup →
      ((∀ j, j ∈ ms → j ≠ cid →
        ((handleFileChunk s cid rawId seq data).clients j).outQ =
          deliverQ (s.clients j).outQ (.fileChunkN (pyStrip rawId) seq data nm)) ∧
       ((handleFileChunk s cid rawId seq data).clients cid) = s.clients cid ∧
       (handleFileChunk s cid rawId seq data).files = s.files) ∧
      ((∀ j, j ∈ ms → j ≠ cid →
        ((handleFileEnd s cid rawId).clients j).outQ =
          deliverQ (s.clients j).outQ (.fileEndN (pyStrip rawId) nm)) ∧
       alookup (handleFileEnd s cid rawId).files (pyStrip rawId) = none)) := by
  have hauth : ¬ ((!fileAuthed s cid) = true) := by
    simp [fileAuthed, hn, hr]
  refine ⟨?_, ?_, ?_⟩
  · intro ha
    constructor
    · rw [handleFileChunk, if_neg hauth, ha]
    · rw [handleFileEnd, if_neg hauth, ha]
  · intro meta hm hforbid
    have hcond : some meta.fromName ≠ (s.clients cid).name ∨
        some meta.room ≠ (s.clients cid).room := by
      rw [hn, hr]
      rcases hforbid with hx | hx
      · exact Or.inl (fun hc => hx (Option.some_injective _ hc))
      · exact Or.inr (fun hc => hx (Option.some_injective _ hc))
    constructor
    · rw [handleFileChunk, if_neg hauth, hm]
      show (if some meta.fromName ≠ (s.clients cid).name ∨
            some meta.room ≠ (s.clients cid).room then
          sendTo s cid (.error "Forbidden file_chunk")
        else if 200000 < data.length then sendTo s cid (.error "Chunk too large")
        else if !b64Valid data then sendTo s cid (.error "Invalid base64")
        else broadcast s meta.room
          (.fileChunkN (pyStrip rawId) seq data (nameStr (s.clients cid).name))
          (some cid)) = sendTo s cid (.error "Forbidden file_chunk")
      rw [if_pos hcond]
    · rw [handleFileEnd, if_neg hauth, hm]
      show (if some meta.fromName ≠ (s.clients cid).name ∨
            some meta.room ≠ (s.clients cid).room then
          sendTo s cid (.error "Forbidden file_end")
        else { broadcast s meta.room
            (.fileEndN (pyStrip rawId) (nameStr (s.clients cid).name)) (some cid) with
          files := aerase (broadcast s meta.room
            (.fileEndN (pyStrip rawId) (nameStr (s.clients cid).name))
            (some cid)).files (pyStrip rawId) }) =
        sendTo s cid (.error "Forbidden file_end")
      rw [if_pos hcond]
  · intro meta ms hm hfrom hroom hlen hb64 hms hnd
    have hcond : ¬ (some meta.fromName ≠ (s.clients cid).name ∨
        some meta.room ≠ (s.clients cid).room) := by
      rw [hn, hr, hfrom, hroom]
      simp
    have hnm : nameStr (s.clients cid).name = nm := by rw [hn]; rfl
    have hredC : handleFileChunk s cid rawId seq data =
        broadcast s meta.room (.fileChunkN (pyStrip rawId) seq data nm) (some cid) := by
      rw [handleFileChunk, if_neg hauth, hm]
      show (if some meta.fromName ≠ (s.clients cid).name ∨
            some meta.room ≠ (s.clients cid).room then
          sendTo s cid (.error "Forbidden file_chunk")
        else if 200000 < data.length then sendTo s cid (.error "Chunk too large")
        else if !b64Valid data then sendTo s cid (.error "Invalid base64")
        else broadcast s meta.room
          (.fileChunkN (pyStrip rawId) seq data (nameStr (s.clients cid).name))
          (some cid)) = _
      rw [if_neg hcond, if_neg hlen, if_neg (by simp [hb64]), hnm]
    have hredE : handleFileEnd s cid rawId =
        { broadcast s meta.room (.fileEndN (pyStrip rawId) nm) (some cid) with
          files := aerase (broadcast s meta.room
            (.fileEndN (pyStrip rawId) nm) (some cid)).files (pyStrip rawId) } := by
      rw [handleFileEnd, if_neg hauth, hm]
      show (if some meta.fromName ≠ (s.clients cid).name ∨
            some meta.room ≠ (s.clients cid).room then
          sendTo s cid (.error "Forbidden file_end")
        else { broadcast s meta.room
            (.fileEndN (pyStrip rawId) (nameStr (s.clients cid).name)) (some cid) with
          files := aerase (broadcast s meta.room
            (.fileEndN (pyStrip rawId) (nameStr (s.clients cid).name))
            (some cid)).files (pyStrip rawId) }) = _
      rw [if_neg hcond, hnm]
    have hbC : broadcast s meta.room (.fileChunkN (pyStrip rawId) seq data nm)
        (some cid) = deliverAll ms (.fileChunkN (pyStrip rawId) seq data nm)
          (some cid) s := by
      rw [broadcast, hms]
      rfl
    have hbE : broadcast s meta.room (.fileEndN (pyStrip rawId) nm)
        (some cid) = deliverAll ms (.fileEndN (pyStrip rawId) nm) (some cid) s := by
      rw [broadcast, hms]
      rfl
    refine ⟨⟨?_, ?_, ?_⟩, ?_, ?_⟩
    · intro j hj hjc
      rw [hredC, hbC, deliverAll_clients _ _ _ hnd s j,
        if_pos ⟨hj, fun hc => hjc (Option.some_injective _ hc).symm⟩]
    · rw [hredC, hbC, deliverAll_excl_self]
    · rw [hredC, hbC, deliverAll_files]
    · intro j hj hjc
      rw [hredE]
      show ((broadcast s meta.room (.fileEndN (pyStrip rawId) nm)
        (some cid)).clients j).outQ = _
      rw [hbE, deliverAll_clients _ _ _ hnd s j,
        if_pos ⟨hj, fun hc => hjc (Option.some_injective _ hc).symm⟩]
    · rw [hredE]
      show alookup (aerase (broadcast s meta.room
        (.fileEndN (pyStrip rawId) nm) (some cid)).files (pyStrip rawId))
        (pyStrip rawId) = none
      rw [alookup_aerase_self]

/-- C1 witness: "x" (connection 0) and "c" (connection 2) share lobby; after
`file_start` (id "0") by 0, a chunk from 0 with seq 7 and data "QQ==" is
relayed to 2 with identical seq and data, and the matching `file_end`
deletes the record. -/
theorem C1_file_relay_witness :
    ((handleFileChunk (runActs initState [.evt 0 (.hello "x"), .evt 2 (.hello "c"),
        .evt 0 (.fileStart "f.txt" 10)]) 0 "0" 7 "QQ==").clients 2).outQ =
      ((runActs initState [.evt 0 (.hello "x"), .evt 2 (.hello "c"),
        .evt 0 (.fileStart "f.txt" 10)]).clients 2).outQ ++
        [.fileChunkN "0" 7 "QQ==" "x"] ∧
    alookup (handleFileEnd (runActs initState [.evt 0 (.hello "x"), .evt 2 (.hello "c"),
        .evt 0 (.fileStart "f.txt" 10)]) 0 "0").files "0" = none := by
  have h := (C1_file_relay (runActs initState [.evt 0 (.hello "x"), .evt 2 (.hello "c"),
      .evt 0 (.fileStart "f.txt" 10)]) 0 "0" 7 "QQ==" "x" "lobby"
      (by decide) (by decide)).2.2
      { fromName := "x", room := "lobby", filename := "f.txt", size := 10 } [0, 2]
      (by decide) (by decide) (by decide) (by decide) (by decide) (by decide) (by decide)
  rw [show pyStrip "0" = "0" from by decide] at h
  refine ⟨?_, ?_⟩
  · have h1 := h.1.1 2 (by decide) (by decide)
    rw [h1]
    decide
  · exact h.2.2
